import Mathlib

/-!
Shallow embedding of the NB-IoT MAC scheduling and HARQ core of the
ns3-with-nbiot repository (src/ns-3.42/src/nbiot/model/), covering:

* the HARQ manager (nbiot-mac.cc / nbiot-mac.h: NbIotHarqEntity,
  NbIotHarqManager);
* the round-robin scheduler (nbiot-enb-mac.cc: NbIotRoundRobinScheduler);
* the coverage-class scheduler (nbiot-enb-mac.cc: NbIotCoverageClassScheduler);
* the SPS scheduler (nbiot-sps-scheduler.cc: NbIotSpsScheduler);
* the orchestration slice of NbIotEnbMac (TransmitDlPdus, TransmitSdu,
  ProcessBsr).

Modelling conventions:
* machine integers (uint8_t/uint16_t/uint32_t) are Nat; reductions mod 2^w
  are written explicitly exactly where the C++ value can overflow
  (HarqEntity::IncrementTxCount on uint8_t, UeContext::totalBufferSize += on
  uint32_t); everywhere else the source arithmetic cannot overflow on the
  values it is fed (indices are clamped with std::min before table lookups);
* ns-3 Time is a signed 64-bit tick count; it is modelled as Int (the unit,
  milliseconds in all the call sites modelled here, is irrelevant to the
  arithmetic);
* Ptr<Packet> queue items are modelled by their byte size (GetSize is the
  only thing the scheduling code reads from them); a serialized MAC PDU is
  modelled by the list of SDU sizes it carries;
* std::map<uint16_t, T> is modelled as an association list ordered by key
  (std::map iteration order); lookups are first-match, as std::map::find on
  a map with unique keys;
* std::sort carries no stability guarantee; it is modelled relationally: the
  coverage-class scheduler is parameterised by the sort implementation, and
  ValidPairSort states exactly the postcondition the C++ standard gives
  (the output is a permutation of the input, sorted by the comparator).
-/

/-- NPDSCH_TBS_TABLE (nbiot-common.h line 321). -/
def npdschTbsTable : List Nat :=
  [16, 32, 56, 88, 120, 152, 184, 208, 256, 328, 408, 504, 584, 680]

/-- NPDSCH_REPETITIONS (nbiot-common.h line 297). -/
def npdschRepetitions : List Nat :=
  [1, 2, 3, 4, 5, 6, 7, 8, 9, 10, 12, 14, 16, 20, 24, 28, 32]

/-- NPUSCH_FORMAT1_REPETITIONS (nbiot-common.h line 305). -/
def npuschFormat1Repetitions : List Nat :=
  [1, 2, 4, 8, 16, 32, 64, 128]

/-- GetTbsFromMcsAndRbs (nbiot-common.h line 574): clamps the MCS to the
TBS-table size and looks the TBS up; the RB count is unused in the source. -/
def getTbsFromMcsAndRbs (mcs : Nat) (_nRbs : Nat) : Nat :=
  npdschTbsTable.getD (if mcs < 14 then mcs else 13) 0

/-- NbIotCoverageClass (nbiot-common.h line 87): enum class with the three
enumerators CE_LEVEL_0 = 0, CE_LEVEL_1 = 1, CE_LEVEL_2 = 2. -/
inductive NbIotCeLevel where
  | CE_LEVEL_0
  | CE_LEVEL_1
  | CE_LEVEL_2
deriving DecidableEq, Repr

/-- The numeric value of the enumerator (used as a table index after
static_cast<size_t> in the source). -/
def NbIotCeLevel.toNat : NbIotCeLevel → Nat
  | .CE_LEVEL_0 => 0
  | .CE_LEVEL_1 => 1
  | .CE_LEVEL_2 => 2

/-- NbIotUeContext (nbiot-enb-mac.h line 49): the per-endpoint scheduling
state read and written by the schedulers.  bsrBuffer and lastActivity are
not consulted by any code modelled here and are omitted.  The field
ceLevel models the source member coverageClass. -/
structure NbIotUeContext where
  rnti : Nat
  ceLevel : NbIotCeLevel
  cqi : Nat
  totalBufferSize : Nat
  srReceived : Bool
  connected : Bool
deriving DecidableEq, Repr

/-- NbIotDlAssignmentResult: one downlink scheduling decision.  sdus is the
list of queued SDU sizes consumed into this transport block. -/
structure NbIotDlAssignmentResult where
  rnti : Nat
  mcs : Nat
  tbSize : Nat
  numSubframes : Nat
  repetitions : Nat
  rv : Nat
  newData : Bool
  harqProcess : Nat
  sdus : List Nat
deriving DecidableEq, Repr

/-- NbIotUlGrantResult: one uplink scheduling decision. -/
structure NbIotUlGrantResult where
  rnti : Nat
  mcs : Nat
  tbSize : Nat
  numSubcarriers : Nat
  numSlots : Nat
  repetitions : Nat
  rv : Nat
  newData : Bool
  harqProcess : Nat
deriving DecidableEq, Repr

/-- NbIotHarqEntity (nbiot-mac.h line 145): state of one HARQ process.  The
defaults are the constructor values (nbiot-mac.cc line 302); packet models
the Ptr<Packet> buffered transport block, none = null. -/
structure NbIotHarqEntity where
  active : Bool := false
  txCount : Nat := 0
  ndi : Bool := false
  tbs : Nat := 0
  repetitions : Nat := 1
  packet : Option (List Nat) := none
deriving DecidableEq, Repr

/-- NbIotHarqEntity::Reset (nbiot-mac.cc line 311): clears every field back
to the constructor state (buffered block dropped, attempt count zero). -/
def harqEntityReset : NbIotHarqEntity := {}

/-- NbIotHarqManager (nbiot-mac.h line 183): a fixed pool of HARQ entities.
The constructor (nbiot-mac.cc line 346) resizes the pool to numProcesses, so
processes.length = numProcesses holds for every manager the program builds;
theorems take it as a hypothesis where element access needs it. -/
structure NbIotHarqManager where
  numProcesses : Nat := 2
  maxTransmissions : Nat := 8
  processes : List NbIotHarqEntity := [{}, {}]
deriving DecidableEq, Repr

/-- NbIotHarqManager::GetAvailableProcess (nbiot-mac.cc line 366): first
index below numProcesses whose entity is inactive, none if all are busy
(the source returns -1). -/
def getAvailableProcess (m : NbIotHarqManager) : Option Nat :=
  (List.range m.numProcesses).find? (fun i => !(m.processes.getD i {}).active)

/-- NbIotHarqManager::ProcessAck (nbiot-mac.cc line 388): unconditionally
resets the addressed entity when the id is in range; out-of-range ids are
ignored. -/
def processAck (m : NbIotHarqManager) (processId : Nat) : NbIotHarqManager :=
  if processId < m.numProcesses then
    { m with processes := m.processes.set processId harqEntityReset }
  else m

/-- NbIotHarqManager::ProcessNack (nbiot-mac.cc line 400): out-of-range ids
return false and change nothing; otherwise the entity's uint8_t attempt
counter is incremented (mod 256), and if it has reached maxTransmissions the
entity is reset and the call returns false (give up), else true (retry). -/
def processNack (m : NbIotHarqManager) (processId : Nat) :
    Bool × NbIotHarqManager :=
  if m.numProcesses ≤ processId then (false, m)
  else
    let e := m.processes.getD processId {}
    let e1 := { e with txCount := (e.txCount + 1) % 256 }
    if m.maxTransmissions ≤ e1.txCount then
      (false, { m with processes := m.processes.set processId harqEntityReset })
    else
      (true, { m with processes := m.processes.set processId e1 })

/-- NbIotHarqManager::ResetProcess (nbiot-mac.cc line 427): force-clears an
in-range entity. -/
def resetProcess (m : NbIotHarqManager) (processId : Nat) : NbIotHarqManager :=
  if processId < m.numProcesses then
    { m with processes := m.processes.set processId harqEntityReset }
  else m

/-- The manager with one pool entry replaced (abbreviation used by theorem
statements; processNack, processAck and resetProcess above produce exactly
this shape). -/
def setProcess (m : NbIotHarqManager) (i : Nat) (x : NbIotHarqEntity) :
    NbIotHarqManager :=
  { m with processes := m.processes.set i x }

/-- An entity with its attempt counter overwritten (a statement
abbreviation). -/
def withTx (e : NbIotHarqEntity) (j : Nat) : NbIotHarqEntity :=
  { e with txCount := j }

/-- n consecutive ProcessNack calls on the same process id, collecting the
returned retry/give-up flags in call order. -/
def nackN (m : NbIotHarqManager) (processId : Nat) : Nat → List Bool × NbIotHarqManager
  | 0 => ([], m)
  | n + 1 =>
    let r := nackN m processId n
    let s := processNack r.2 processId
    (r.1 ++ [s.1], s.2)

/-! ### Association-list helpers for std::map<uint16_t, T> -/

/-- std::map lookup (find by key, unique keys so first match). -/
def alistFind (m : List (Nat × α)) (k : Nat) : Option α :=
  match m with
  | [] => none
  | p :: t => if p.1 = k then some p.2 else alistFind t k

/-- std::map operator[] assignment: replace the entry at the key, or insert
it at its ordered position. -/
def alistInsert (m : List (Nat × α)) (k : Nat) (v : α) : List (Nat × α) :=
  match m with
  | [] => [(k, v)]
  | p :: t =>
    if k < p.1 then (k, v) :: p :: t
    else if k = p.1 then (k, v) :: t
    else p :: alistInsert t k v

/-- In-place mutation of the value found at a key (it->second.field = ...):
rewrites the first entry carrying the key, leaves the rest alone. -/
def alistModify (m : List (Nat × α)) (k : Nat) (f : α → α) : List (Nat × α) :=
  match m with
  | [] => []
  | p :: t => if p.1 = k then (p.1, f p.2) :: t else p :: alistModify t k f

/-! ### eNB MAC state (the slice the schedulers read and write) -/

/-- The NbIotEnbMac state the schedulers operate on: the UE-context map, the
per-UE downlink transmit queues (each queue item modelled by its SDU byte
size), and the per-UE downlink HARQ managers.  All three are std::map keyed
by RNTI. -/
structure MacState where
  ueContexts : List (Nat × NbIotUeContext)
  dlQueues : List (Nat × List Nat)
  dlHarqManagers : List (Nat × NbIotHarqManager)
deriving DecidableEq, Repr

/-- NbIotEnbMac::GetUeContext (nbiot-enb-mac.cc line 785). -/
def lookupUe (st : MacState) (rnti : Nat) : Option NbIotUeContext :=
  alistFind st.ueContexts rnti

/-- NbIotEnbMac::GetDlTxQueue (nbiot-enb-mac.cc line 812): operator[], so a
missing key reads as the empty queue. -/
def dlQueue (st : MacState) (rnti : Nat) : List Nat :=
  (alistFind st.dlQueues rnti).getD []

/-- Write back the (by-reference) downlink queue of one UE. -/
def setDlQueue (st : MacState) (rnti : Nat) (q : List Nat) : MacState :=
  { st with dlQueues := alistInsert st.dlQueues rnti q }

/-- context->srReceived = false through the pointer returned by
GetUeContext: clears the flag on the map entry carrying the RNTI. -/
def clearSr (st : MacState) (rnti : Nat) : MacState :=
  { st with ueContexts :=
      alistModify st.ueContexts rnti (fun c => { c with srReceived := false }) }

/-- The uplink pending test used by every scheduler:
context->srReceived || context->totalBufferSize > 0. -/
def ulPending (c : NbIotUeContext) : Bool :=
  c.srReceived || decide (0 < c.totalBufferSize)

/-! ### NbIotRoundRobinScheduler -/

/-- The scheduler's cursor state (nbiot-enb-mac.cc line 90): both last-served
RNTIs start at 0. -/
structure RrState where
  lastDlRnti : Nat := 0
  lastUlRnti : Nat := 0
deriving DecidableEq, Repr

/-- The uplink grant built by NbIotRoundRobinScheduler::ScheduleUl for a
selected context (nbiot-enb-mac.cc lines 216-233). -/
def rrUlGrantFor (rnti : Nat) (c : NbIotUeContext) : NbIotUlGrantResult :=
  let mcs := min (c.cqi / 2) 7
  { rnti := rnti
    mcs := mcs
    tbSize := getTbsFromMcsAndRbs mcs 1
    numSubcarriers := 12
    numSlots := 2
    repetitions := npuschFormat1Repetitions.getD (min c.ceLevel.toNat 7) 0
    rv := 0
    newData := true
    harqProcess := 0 }

/-- The UE-context scan of NbIotRoundRobinScheduler::ScheduleUl
(nbiot-enb-mac.cc lines 206-243): walk the map in ascending-key order,
skip disconnected contexts, grant the first context with pending uplink
data, clear its SR flag in place, and stop.  Returns the grants, the
updated context list, and the granted RNTI (which the source writes to
m_lastUlRnti).  Note the scan starts from the beginning of the map on
every call: m_lastUlRnti and GetNextRnti(lastRnti, false) are never
consulted here. -/
def rrUlLoop : List (Nat × NbIotUeContext) →
    List NbIotUlGrantResult × List (Nat × NbIotUeContext) × Option Nat
  | [] => ([], [], none)
  | p :: t =>
    if p.2.connected && ulPending p.2 then
      ([rrUlGrantFor p.1 p.2], (p.1, { p.2 with srReceived := false }) :: t, some p.1)
    else
      let r := rrUlLoop t
      (r.1, p :: r.2.1, r.2.2)

/-- NbIotRoundRobinScheduler::ScheduleUl (nbiot-enb-mac.cc line 187). -/
def rrScheduleUl (rr : RrState) (st : MacState) (availableRbs : Nat) :
    List NbIotUlGrantResult × RrState × MacState :=
  if availableRbs = 0 then ([], rr, st)
  else if st.ueContexts.isEmpty then ([], rr, st)
  else
    let r := rrUlLoop st.ueContexts
    (r.1, { rr with lastUlRnti := r.2.2.getD rr.lastUlRnti },
      { st with ueContexts := r.2.1 })

/-- The per-context qualification test of GetNextRnti (nbiot-enb-mac.cc
lines 273-283): connected, and (downlink) a non-empty transmit queue or
(uplink) pending data. -/
def ueQualifies (st : MacState) (dl : Bool) (p : Nat × NbIotUeContext) : Bool :=
  p.2.connected && (if dl then !(dlQueue st p.1).isEmpty else ulPending p.2)

/-- NbIotRoundRobinScheduler::GetNextRnti (nbiot-enb-mac.cc line 248): on
the key-ordered map, upper_bound(lastRnti) is the first entry with key >
lastRnti (dropWhile of the ≤ prefix), the do-while wraps around visiting
every entry once, and the first qualifying key is returned; 0 signals
"none found". -/
def getNextRnti (st : MacState) (lastRnti : Nat) (dl : Bool) : Nat :=
  if st.ueContexts.isEmpty then 0
  else
    let rot := st.ueContexts.dropWhile (fun p => decide (p.1 ≤ lastRnti)) ++
               st.ueContexts.takeWhile (fun p => decide (p.1 ≤ lastRnti))
    match rot.find? (ueQualifies st dl) with
    | some p => p.1
    | none => 0

/-- The SDU-collection loop shared by the round-robin and coverage-class
downlink schedulers (nbiot-enb-mac.cc lines 161-176): while the queue is
non-empty and more than 3 bytes of budget remain, pop the head SDU into the
transport block if it plus a 2-byte subheader fits; stop at the first SDU
that does not fit.  Returns the consumed SDUs and the remaining queue. -/
def collectSdus : List Nat → Nat → List Nat × List Nat
  | [], _ => ([], [])
  | s :: q, remaining =>
    if 3 < remaining then
      if s + 2 ≤ remaining then
        let r := collectSdus q (remaining - (s + 2))
        (s :: r.1, r.2)
      else ([], s :: q)
    else ([], s :: q)

/-- NbIotRoundRobinScheduler::ScheduleDl (nbiot-enb-mac.cc line 102): pick
the next cursor RNTI with pending downlink data, drain its queue into one
transport block, and advance the cursor only if at least one SDU was
collected. -/
def rrScheduleDl (rr : RrState) (st : MacState) (availableRbs : Nat) :
    List NbIotDlAssignmentResult × RrState × MacState :=
  if availableRbs = 0 then ([], rr, st)
  else if st.ueContexts.isEmpty then ([], rr, st)
  else
    let rnti := getNextRnti st rr.lastDlRnti true
    if rnti = 0 then ([], rr, st)
    else
      let q := dlQueue st rnti
      if q.isEmpty then ([], rr, st)
      else
        match lookupUe st rnti with
        | none => ([], rr, st)
        | some c =>
          let mcs := min c.cqi 10
          let tbSize := getTbsFromMcsAndRbs mcs 1
          let r := collectSdus q tbSize
          let st1 := setDlQueue st rnti r.2
          if r.1.isEmpty then ([], rr, st1)
          else
            ([{ rnti := rnti
                mcs := mcs
                tbSize := tbSize
                numSubframes := 1
                repetitions := npdschRepetitions.getD (min (c.ceLevel.toNat * 2) 16) 0
                rv := 0
                newData := true
                harqProcess := 0
                sdus := r.1 }],
              { rr with lastDlRnti := rnti }, st1)

/-! ### NbIotCoverageClassScheduler -/

/-- NbIotCoverageClassScheduler::GetPriority (nbiot-enb-mac.cc line 454):
the most extended coverage class gets the numerically lowest (best)
priority.  The source's default arm (returning 4) is unreachable for the
three declared enumerators. -/
def getPriority : NbIotCeLevel → Nat
  | .CE_LEVEL_0 => 3
  | .CE_LEVEL_1 => 2
  | .CE_LEVEL_2 => 1

/-- The postcondition the C++ standard guarantees for
std::sort(v.begin(), v.end(), [](a, b){ return a.second < b.second; }):
the result is a permutation of the input, with no adjacent inversion of the
comparator.  Stability (the relative order of tied elements) is NOT
guaranteed, so the coverage-class scheduler is parameterised by the sort
implementation and the theorems quantify over every conforming one. -/
def ValidPairSort (f : List (Nat × Nat) → List (Nat × Nat)) : Prop :=
  ∀ l, List.Perm (f l) l ∧ List.Sorted (fun a b : Nat × Nat => a.2 ≤ b.2) (f l)

/-- NbIotCoverageClassScheduler::SortByPriority (nbiot-enb-mac.cc line 472):
pair each RNTI that still resolves to a context with its coverage-class
priority, sort the pairs by priority with std::sort (modelled by the
parameter f), and strip the priorities. -/
def sortByPriority (f : List (Nat × Nat) → List (Nat × Nat))
    (st : MacState) (ueList : List Nat) : List Nat :=
  (f (ueList.filterMap
      (fun r => (lookupUe st r).map (fun c => (r, getPriority c.ceLevel))))).map
    Prod.fst

/-- The uplink grant built by NbIotCoverageClassScheduler::ScheduleUl for
the selected context (nbiot-enb-mac.cc lines 432-446). -/
def ccUlGrantFor (rnti : Nat) (c : NbIotUeContext) : NbIotUlGrantResult :=
  let mcs := min (c.cqi / 2) 7
  { rnti := rnti
    mcs := mcs
    tbSize := getTbsFromMcsAndRbs mcs 1
    numSubcarriers := 12
    numSlots := 2
    repetitions := npuschFormat1Repetitions.getD (min (c.ceLevel.toNat * 2) 7) 0
    rv := 0
    newData := true
    harqProcess := 0 }

/-- NbIotCoverageClassScheduler::ScheduleUl (nbiot-enb-mac.cc line 396):
collect the connected contexts with pending uplink data, sort them by
coverage-class priority, grant the front of the sorted list and clear its
SR flag.  The two empty match arms are unreachable in the source (front()
and GetUeContext are used without checks on a non-empty candidate set). -/
def ccScheduleUl (f : List (Nat × Nat) → List (Nat × Nat))
    (st : MacState) (availableRbs : Nat) :
    List NbIotUlGrantResult × MacState :=
  if availableRbs = 0 then ([], st)
  else
    let candidateRntis :=
      (st.ueContexts.filter (fun p => p.2.connected && ulPending p.2)).map Prod.fst
    if candidateRntis.isEmpty then ([], st)
    else
      match sortByPriority f st candidateRntis with
      | [] => ([], st)
      | rnti :: _ =>
        match lookupUe st rnti with
        | none => ([], st)
        | some c => ([ccUlGrantFor rnti c], clearSr st rnti)

/-- NbIotCoverageClassScheduler::ScheduleDl (nbiot-enb-mac.cc line 319):
like the uplink side but with the non-empty-queue test, and with the same
SDU-collection loop as the round-robin downlink scheduler; the assignment
is emitted only if at least one SDU was collected. -/
def ccScheduleDl (f : List (Nat × Nat) → List (Nat × Nat))
    (st : MacState) (availableRbs : Nat) :
    List NbIotDlAssignmentResult × MacState :=
  if availableRbs = 0 then ([], st)
  else
    let candidateRntis :=
      (st.ueContexts.filter
        (fun p => p.2.connected && !(dlQueue st p.1).isEmpty)).map Prod.fst
    if candidateRntis.isEmpty then ([], st)
    else
      match sortByPriority f st candidateRntis with
      | [] => ([], st)
      | rnti :: _ =>
        match lookupUe st rnti with
        | none => ([], st)
        | some c =>
          let mcs := min c.cqi 10
          let tbSize := getTbsFromMcsAndRbs mcs 1
          let r := collectSdus (dlQueue st rnti) tbSize
          let st1 := setDlQueue st rnti r.2
          if r.1.isEmpty then ([], st1)
          else
            ([{ rnti := rnti
                mcs := mcs
                tbSize := tbSize
                numSubframes := 1
                repetitions := npdschRepetitions.getD (min (c.ceLevel.toNat * 3) 16) 0
                rv := 0
                newData := true
                harqProcess := 0
                sdus := r.1 }], st1)

/-! ### NbIotSpsScheduler -/

/-- NbIotSpsConfig (nbiot-sps-scheduler.h line 41) with its constructor
defaults (lines 53-62).  Times are in milliseconds. -/
structure NbIotSpsConfig where
  rnti : Nat := 0
  spsInterval : Int := 20
  numSubcarriers : Nat := 12
  mcs : Nat := 4
  tbSize : Nat := 88
  repetitions : Nat := 1
  nextAllocation : Int := 0
  active : Bool := false
  harqProcess : Nat := 0
deriving DecidableEq, Repr

/-- The NbIotSpsScheduler's own state: the per-UE SPS configuration table,
the two attribute defaults, and the statistics counters
(nbiot-sps-scheduler.cc lines 45-54).  m_lastDynamicRnti is kept for
completeness; the source initialises it and never reads it. -/
structure SpsState where
  spsConfigs : List (Nat × NbIotSpsConfig) := []
  defaultSpsInterval : Int := 20
  autoActivateSps : Bool := true
  paddingTransmissions : Nat := 0
  dataTransmissions : Nat := 0
  lastDynamicRnti : Nat := 0
  subframeCounter : Nat := 0
deriving DecidableEq, Repr

/-- NbIotSpsScheduler::SelectMcsAndTbs (nbiot-sps-scheduler.cc line 401):
map the CQI to a coarse (mcs, tbSize), then scale the TBS down
proportionally for fewer than 12 subcarriers with a floor of 16. -/
def selectMcsAndTbs (cqi : Nat) (numSubcarriers : Nat) : Nat × Nat :=
  let base : Nat × Nat :=
    if cqi ≤ 3 then (0, 16)
    else if cqi ≤ 5 then (2, 56)
    else if cqi ≤ 8 then (4, 88)
    else if cqi ≤ 11 then (6, 152)
    else (8, 256)
  if numSubcarriers < 12 then
    let tb := base.2 * numSubcarriers / 12
    (base.1, if tb < 16 then 16 else tb)
  else base

/-- NbIotSpsScheduler::ConfigureSps (nbiot-sps-scheduler.cc line 69): build
a deactivated configuration whose MCS/TBS come from SelectMcsAndTbs at the
fixed default CQI 7 (the target UE's actual CQI is never read), with
nextAllocation = now, and store it under the RNTI. -/
def configureSps (now : Int) (sps : SpsState) (rnti : Nat)
    (interval : Int) (numSubcarriers : Nat) : SpsState :=
  let mt := selectMcsAndTbs 7 numSubcarriers
  let config : NbIotSpsConfig :=
    { rnti := rnti
      spsInterval := interval
      numSubcarriers := numSubcarriers
      mcs := mt.1
      tbSize := mt.2
      nextAllocation := now
      active := false }
  { sps with spsConfigs := alistInsert sps.spsConfigs rnti config }

/-- NbIotSpsScheduler::ActivateSps (nbiot-sps-scheduler.cc line 93):
auto-configure with the defaults when no configuration exists, then mark it
active with nextAllocation = now. -/
def activateSps (now : Int) (sps : SpsState) (rnti : Nat) : SpsState :=
  let sps1 :=
    if (alistFind sps.spsConfigs rnti).isSome then sps
    else configureSps now sps rnti sps.defaultSpsInterval 12
  let m1 := alistModify sps1.spsConfigs rnti
    (fun c => { c with active := true, nextAllocation := now })
  { sps1 with spsConfigs := m1 }

/-- NbIotSpsScheduler::DeactivateSps (nbiot-sps-scheduler.cc line 112). -/
def deactivateSps (sps : SpsState) (rnti : Nat) : SpsState :=
  { sps with spsConfigs :=
      alistModify sps.spsConfigs rnti (fun c => { c with active := false }) }

/-- NbIotSpsScheduler::IsSpsActive (nbiot-sps-scheduler.cc line 124). -/
def isSpsActive (sps : SpsState) (rnti : Nat) : Bool :=
  match alistFind sps.spsConfigs rnti with
  | some c => c.active
  | none => false

/-- The per-entry effect of UpdateNextAllocation: nextAllocation becomes
Simulator::Now() + the entry's interval (anchored at the current time, not
at the previous nextAllocation). -/
def spsFire (now : Int) (c : NbIotSpsConfig) : NbIotSpsConfig :=
  { c with nextAllocation := now + c.spsInterval }

/-- NbIotSpsScheduler::UpdateNextAllocation (nbiot-sps-scheduler.cc line
446): look the configuration up by RNTI and re-anchor its nextAllocation. -/
def spsUpdateNextAllocation (now : Int) (m : List (Nat × NbIotSpsConfig))
    (rnti : Nat) : List (Nat × NbIotSpsConfig) :=
  alistModify m rnti (spsFire now)

/-- The periodic grant built from a stored configuration
(nbiot-sps-scheduler.cc lines 292-301). -/
def spsGrantFor (c : NbIotSpsConfig) : NbIotUlGrantResult :=
  { rnti := c.rnti
    mcs := c.mcs
    tbSize := c.tbSize
    numSubcarriers := c.numSubcarriers
    numSlots := 4
    repetitions := c.repetitions
    rv := 0
    newData := true
    harqProcess := c.harqProcess }

/-- The loop body of NbIotSpsScheduler::ScheduleSpsGrants
(nbiot-sps-scheduler.cc lines 272-321): walk the configuration map in key
order (the key list is fixed up front; values are re-read from the evolving
map because UpdateNextAllocation mutates it mid-loop), stop when the RB
budget is used up, and for every active configuration whose nextAllocation
has elapsed emit a grant, bump the data/padding statistic according to the
UE's backlog, and re-anchor its nextAllocation.  Returns the grants, the
updated map, and the two statistics counters. -/
def spsGrantsGo (now : Int) (ueCtxs : List (Nat × NbIotUeContext))
    (availableRbs : Nat) :
    List Nat → List (Nat × NbIotSpsConfig) → Nat → Nat → Nat →
    List NbIotUlGrantResult × List (Nat × NbIotSpsConfig) × Nat × Nat
  | [], m, _, dataTx, padTx => ([], m, dataTx, padTx)
  | k :: ks, m, usedRbs, dataTx, padTx =>
    if availableRbs ≤ usedRbs then ([], m, dataTx, padTx)
    else
      match alistFind m k with
      | none => spsGrantsGo now ueCtxs availableRbs ks m usedRbs dataTx padTx
      | some c =>
        if !c.active then
          spsGrantsGo now ueCtxs availableRbs ks m usedRbs dataTx padTx
        else if c.nextAllocation ≤ now then
          let hasData :=
            match alistFind ueCtxs c.rnti with
            | some u => decide (0 < u.totalBufferSize)
            | none => false
          let dataTx1 := if hasData then dataTx + 1 else dataTx
          let padTx1 := if hasData then padTx else padTx + 1
          let m1 := spsUpdateNextAllocation now m c.rnti
          let r := spsGrantsGo now ueCtxs availableRbs ks m1 (usedRbs + 1) dataTx1 padTx1
          (spsGrantFor c :: r.1, r.2)
        else
          spsGrantsGo now ueCtxs availableRbs ks m usedRbs dataTx padTx

/-- NbIotSpsScheduler::ScheduleSpsGrants (nbiot-sps-scheduler.cc line 264). -/
def scheduleSpsGrants (now : Int) (ueCtxs : List (Nat × NbIotUeContext))
    (sps : SpsState) (availableRbs : Nat) :
    List NbIotUlGrantResult × SpsState :=
  let r := spsGrantsGo now ueCtxs availableRbs (sps.spsConfigs.map Prod.fst)
      sps.spsConfigs 0 sps.dataTransmissions sps.paddingTransmissions
  (r.1, { sps with
          spsConfigs := r.2.1
          dataTransmissions := r.2.2.1
          paddingTransmissions := r.2.2.2 })

/-- The grant loop of NbIotSpsScheduler::ScheduleDynamicGrants
(nbiot-sps-scheduler.cc lines 361-396): serve the collected dynamic UEs in
map order up to the RB budget, re-reading each context from the evolving
state (earlier iterations clear SR flags through UE-context pointers). -/
def dynLoop (availableRbs : Nat) :
    List Nat → MacState → Nat → List NbIotUlGrantResult × MacState
  | [], st, _ => ([], st)
  | rnti :: rest, st, usedRbs =>
    if availableRbs ≤ usedRbs then ([], st)
    else
      match lookupUe st rnti with
      | none => dynLoop availableRbs rest st usedRbs
      | some c =>
        let mt := selectMcsAndTbs c.cqi 12
        let g : NbIotUlGrantResult :=
          { rnti := rnti
            mcs := mt.1
            tbSize := mt.2
            numSubcarriers := 12
            numSlots := 4
            repetitions := 1
            rv := 0
            newData := true
            harqProcess := 0 }
        let r := dynLoop availableRbs rest (clearSr st rnti) (usedRbs + 1)
        (g :: r.1, r.2)

/-- NbIotSpsScheduler::ScheduleDynamicGrants (nbiot-sps-scheduler.cc line
326): round-robin-style grants for UEs with pending data that have no
active SPS configuration.  Note: the connected flag is never tested. -/
def scheduleDynamicGrants (sps : SpsState) (st : MacState)
    (availableRbs : Nat) : List NbIotUlGrantResult × MacState :=
  if availableRbs = 0 then ([], st)
  else
    let dynamicUes :=
      (st.ueContexts.filter
        (fun p => !isSpsActive sps p.1 && ulPending p.2)).map Prod.fst
    dynLoop availableRbs dynamicUes st 0

/-- NbIotSpsScheduler::ScheduleUl (nbiot-sps-scheduler.cc line 235): bump
the subframe counter, issue the periodic SPS grants, subtract one RB per
SPS grant from the budget (saturating at 0), then hand the remainder to the
dynamic pass. -/
def spsScheduleUl (now : Int) (sps : SpsState) (st : MacState)
    (availableRbs : Nat) :
    List NbIotUlGrantResult × SpsState × MacState :=
  let sps0 := { sps with subframeCounter := sps.subframeCounter + 1 }
  let r := scheduleSpsGrants now st.ueContexts sps0 availableRbs
  let remainingRbs :=
    r.1.foldl (fun rbs _ => if 0 < rbs then rbs - 1 else 0) availableRbs
  let d := scheduleDynamicGrants r.2 st remainingRbs
  (r.1 ++ d.1, r.2, d.2)

/-- The loop of NbIotSpsScheduler::ScheduleDl (nbiot-sps-scheduler.cc lines
198-230): best-effort round robin in map order, up to the RB budget; each
served UE gets a fixed MCS-4 / 88-byte assignment filled with up to 8
queued SDUs (no byte-budget check).  Note: the connected flag is never
tested. -/
def spsDlLoop (availableRbs : Nat) :
    List (Nat × NbIotUeContext) → MacState → Nat →
    List NbIotDlAssignmentResult × MacState
  | [], st, _ => ([], st)
  | p :: rest, st, usedRbs =>
    if availableRbs ≤ usedRbs then ([], st)
    else
      let q := dlQueue st p.1
      if q.isEmpty then spsDlLoop availableRbs rest st usedRbs
      else
        let asg : NbIotDlAssignmentResult :=
          { rnti := p.1
            mcs := 4
            tbSize := 88
            numSubframes := 1
            repetitions := 1
            rv := 0
            newData := true
            harqProcess := 0
            sdus := q.take 8 }
        let r := spsDlLoop availableRbs rest (setDlQueue st p.1 (q.drop 8)) (usedRbs + 1)
        (asg :: r.1, r.2)

/-- NbIotSpsScheduler::ScheduleDl (nbiot-sps-scheduler.cc line 182). -/
def spsScheduleDl (st : MacState) (availableRbs : Nat) :
    List NbIotDlAssignmentResult × MacState :=
  spsDlLoop availableRbs st.ueContexts st 0

/-! ### NbIotEnbMac orchestration slice -/

/-- NbIotEnbMac::TransmitDlPdus (nbiot-enb-mac.cc line 888): for every
assignment, build the MAC PDU from its SDUs, store it into the addressed
HARQ process (SetPacket/SetTbs/SetActive(true)) when the per-UE manager
exists and the process id is in range — unconditionally, with no
GetAvailableProcess check and no test of the process's current state —
and hand the PDU to the PHY.  The PHY is modelled as attached (m_phy is
set whenever the device is wired up); the transmitted (rnti, pdu) pairs
are returned so theorems can observe that nothing is dropped. -/
def transmitDlPdus (st : MacState) :
    List NbIotDlAssignmentResult → MacState × List (Nat × List Nat)
  | [] => (st, [])
  | a :: rest =>
    let pdu := a.sdus
    let storeTb : NbIotHarqManager → NbIotHarqManager := fun h =>
      let e := h.processes.getD a.harqProcess {}
      let e1 := { e with packet := some pdu, tbs := a.tbSize, active := true }
      { h with processes := h.processes.set a.harqProcess e1 }
    let st1 :=
      match alistFind st.dlHarqManagers a.rnti with
      | none => st
      | some hm =>
        if a.harqProcess < hm.numProcesses then
          { st with dlHarqManagers := alistModify st.dlHarqManagers a.rnti storeTb }
        else st
    let r := transmitDlPdus st1 rest
    (r.1, (a.rnti, pdu) :: r.2)

/-- The downlink half of NbIotEnbMac::DoSchedule (nbiot-enb-mac.cc lines
869-877) with the round-robin scheduler attached: ScheduleDl with
availableRbs = 1, then TransmitDlPdus on a non-empty result.  Returns the
new cursor state, the new MAC state, and the transmitted PDUs. -/
def doScheduleDlRr (rr : RrState) (st : MacState) :
    RrState × MacState × List (Nat × List Nat) :=
  let r := rrScheduleDl rr st 1
  if r.1.isEmpty then (r.2.1, r.2.2, [])
  else
    let t := transmitDlPdus r.2.2 r.1
    (r.2.1, t.1, t.2)

/-- NbIotEnbMac::TransmitSdu (nbiot-enb-mac.cc line 653): enqueue the SDU
on the UE's downlink queue and add its size to the context's uint32_t
totalBufferSize (when the context exists). -/
def transmitSdu (st : MacState) (rnti : Nat) (size : Nat) : MacState :=
  let st1 := setDlQueue st rnti (dlQueue st rnti ++ [size])
  { st1 with ueContexts :=
      alistModify st1.ueContexts rnti (fun c =>
        { c with totalBufferSize := (c.totalBufferSize + size) % 2 ^ 32 }) }

/-- NbIotEnbMac::ProcessBsr (nbiot-enb-mac.cc line 706): a buffer status
report sets the context's backlog to the fixed reported value 100 and
raises the SR flag (when the context exists). -/
def processBsr (st : MacState) (rnti : Nat) : MacState :=
  { st with ueContexts :=
      alistModify st.ueContexts rnti (fun c =>
        { c with totalBufferSize := 100, srReceived := true }) }

/-! ### Claim C1 -/

/-- Three endpoints {A, B, C} = RNTIs {1, 2, 3}, all connected, all with the
request-pending flag set and a 100-byte backlog. -/
def exC1Ctx (r : Nat) : NbIotUeContext :=
  { rnti := r, ceLevel := .CE_LEVEL_0, cqi := 7, totalBufferSize := 100,
    srReceived := true, connected := true }

def exC1St : MacState :=
  { ueContexts := [(1, exC1Ctx 1), (2, exC1Ctx 2), (3, exC1Ctx 3)],
    dlQueues := [], dlHarqManagers := [] }

def exC1Call1 := rrScheduleUl {} exC1St 1
def exC1Call2 := rrScheduleUl exC1Call1.2.1 exC1Call1.2.2 1
def exC1Call3 := rrScheduleUl exC1Call2.2.1 exC1Call2.2.2 1
def exC1Call4 := rrScheduleUl exC1Call3.2.1 exC1Call3.2.2 1

/-- A two-process manager with maxTransmissions = 8, process 0 active with a
buffered block and attempt count 0 (the state right after a fresh transport
block has been assigned). -/
def exC2Ent : NbIotHarqEntity :=
  { active := true, txCount := 0, packet := some [42] }

def exC2Mgr : NbIotHarqManager :=
  { numProcesses := 2, maxTransmissions := 8, processes := [exC2Ent, {}] }

/-! ### Claim C9 -/

/-- A single-process manager with maxTransmissions = 1 (the smallest value
the MaxTransmissions attribute checker accepts) whose entity is in the
freshly-reset state. -/
def exC9Mgr : NbIotHarqManager :=
  { numProcesses := 1, maxTransmissions := 1, processes := [{}] }

/-- An inactive entity with three prior attempts, sitting at slot 1 of a
default two-process manager. -/
def exC9WEnt : NbIotHarqEntity := { txCount := 3 }

def exC9WMgr : NbIotHarqManager :=
  { numProcesses := 2, maxTransmissions := 8, processes := [{}, exC9WEnt] }

/-! ### Claim C6 -/

/-- Well-formedness of the SPS configuration map, maintained by ConfigureSps
(which always stores the config under its own rnti field): every entry's
stored rnti equals its map key. -/
def SpsWf (m : List (Nat × NbIotSpsConfig)) : Prop :=
  ∀ p ∈ m, (p.2 : NbIotSpsConfig).rnti = p.1

/-- An SPS configuration activated at t = 100 with a 20 ms interval,
stored under its RNTI. -/
def exC6Cfg : NbIotSpsConfig :=
  { rnti := 1, spsInterval := 20, nextAllocation := 100, active := true }

def exC6Sps : SpsState := { spsConfigs := [(1, exC6Cfg)] }

/-! ### Claim C3 -/

instance : DecidableRel (fun a b : Nat × Nat => a.2 ≤ b.2) :=
  fun a b => Nat.decLe a.2 b.2

instance : IsTotal (Nat × Nat) (fun a b : Nat × Nat => a.2 ≤ b.2) :=
  ⟨fun a b => Nat.le_total a.2 b.2⟩

instance : IsTrans (Nat × Nat) (fun a b : Nat × Nat => a.2 ≤ b.2) :=
  ⟨fun _ _ _ hab hbc => Nat.le_trans hab hbc⟩

/-- One conforming implementation of the modelled std::sort: a stable
insertion sort on the priority component. -/
def goodPairSort (l : List (Nat × Nat)) : List (Nat × Nat) :=
  List.insertionSort (fun a b : Nat × Nat => a.2 ≤ b.2) l

/-- Another conforming implementation of the modelled std::sort: insertion
sort after reversing the input.  Its output is also a permutation sorted by
the comparator, but elements with equal priorities come out in reversed
input order. -/
def revPairSort (l : List (Nat × Nat)) : List (Nat × Nat) :=
  List.insertionSort (fun a b : Nat × Nat => a.2 ≤ b.2) l.reverse

/-- A single connected endpoint with pending uplink data. -/
def exC3WCtx : NbIotUeContext :=
  { rnti := 1, ceLevel := .CE_LEVEL_0, cqi := 7, totalBufferSize := 50,
    srReceived := true, connected := true }

def exC3WSt : MacState :=
  { ueContexts := [(1, exC3WCtx)], dlQueues := [], dlHarqManagers := [] }

/-- A disconnected endpoint (connected = false) with the request-pending
flag still set — exactly the state §3's invariant says must never be
served. -/
def exC3Ctx : NbIotUeContext :=
  { rnti := 1, ceLevel := .CE_LEVEL_0, cqi := 7, totalBufferSize := 0,
    srReceived := true, connected := false }

def exC3St : MacState :=
  { ueContexts := [(1, exC3Ctx)], dlQueues := [], dlHarqManagers := [] }

/-- The same endpoint, disconnected with a non-empty downlink queue. -/
def exC3StQ : MacState :=
  { ueContexts := [(1, { exC3Ctx with srReceived := false })],
    dlQueues := [(1, [10])], dlHarqManagers := [] }

/-- An SPS table with an active configuration for RNTI 1 due at t = 100. -/
def exC3Sps : SpsState :=
  { spsConfigs :=
      [(1, { rnti := 1, spsInterval := 20, nextAllocation := 100, active := true })] }

/-- Two connected endpoints with pending data: RNTI 1 in normal coverage
(priority 3) and RNTI 2 in the most extended coverage class (priority 1). -/
def exC5WCtx1 : NbIotUeContext :=
  { rnti := 1, ceLevel := .CE_LEVEL_0, cqi := 7, totalBufferSize := 40,
    srReceived := true, connected := true }

def exC5WCtx2 : NbIotUeContext :=
  { rnti := 2, ceLevel := .CE_LEVEL_2, cqi := 7, totalBufferSize := 40,
    srReceived := true, connected := true }

def exC5WSt : MacState :=
  { ueContexts := [(1, exC5WCtx1), (2, exC5WCtx2)], dlQueues := [],
    dlHarqManagers := [] }

/-- Two connected endpoints with pending data sharing the SAME (lowest)
priority: both in coverage class CE_LEVEL_2 (priority 1), ids 1 and 2. -/
def exC5Ctx1 : NbIotUeContext :=
  { rnti := 1, ceLevel := .CE_LEVEL_2, cqi := 7, totalBufferSize := 40,
    srReceived := true, connected := true }

def exC5Ctx2 : NbIotUeContext :=
  { rnti := 2, ceLevel := .CE_LEVEL_2, cqi := 7, totalBufferSize := 40,
    srReceived := true, connected := true }

def exC5St : MacState :=
  { ueContexts := [(1, exC5Ctx1), (2, exC5Ctx2)], dlQueues := [],
    dlHarqManagers := [] }

/-- A HARQ manager whose two processes are both busy with buffered
in-flight blocks — GetAvailableProcess would report none free. -/
def exC7Mgr : NbIotHarqManager :=
  { numProcesses := 2
    maxTransmissions := 8
    processes := [{ active := true, packet := some [1] },
                  { active := true, packet := some [2] }] }

/-- One connected endpoint with a queued 10-byte SDU and the busy manager. -/
def exC7St : MacState :=
  { ueContexts :=
      [(1, { rnti := 1, ceLevel := .CE_LEVEL_0, cqi := 7, totalBufferSize := 0,
             srReceived := false, connected := true })]
    dlQueues := [(1, [10])]
    dlHarqManagers := [(1, exC7Mgr)] }

/-- The assignment the round-robin downlink scheduler produces on exC7St. -/
def exC7Asg : NbIotDlAssignmentResult :=
  { rnti := 1, mcs := 7, tbSize := 208, numSubframes := 1, repetitions := 1,
    rv := 0, newData := true, harqProcess := 0, sdus := [10] }

/-! ### Claim C8 -/

/-- A context with only its buffer field replaced (statement helper). -/
def ctxWithBuf (c : NbIotUeContext) (b : Nat) : NbIotUeContext :=
  { c with totalBufferSize := b }

/-- The context state ProcessBsr leaves behind (statement helper). -/
def ctxAfterBsr (c : NbIotUeContext) : NbIotUeContext :=
  { c with totalBufferSize := 100, srReceived := true }

/-- One connected endpoint with the request flag set and a 100-byte
backlog. -/
def exC8Ctx : NbIotUeContext :=
  { rnti := 1, ceLevel := .CE_LEVEL_0, cqi := 7, totalBufferSize := 100,
    srReceived := true, connected := true }

def exC8St : MacState :=
  { ueContexts := [(1, exC8Ctx)], dlQueues := [], dlHarqManagers := [] }

/-! ## Theorems -/

theorem listGetSetSelf {α : Type} (l : List α) (n : Nat) (a : α)
    (h : n < l.length) : (l.set n a).get? n = some a := by
  rw [List.get?_eq_getElem?]
  exact List.getElem?_set_self h

theorem alistFind_insert_self {α : Type} (m : List (Nat × α)) (k : Nat) (v : α) :
    alistFind (alistInsert m k v) k = some v := by
  induction m with
  | nil => simp [alistInsert, alistFind]
  | cons p t ih =>
    by_cases h1 : k < p.1
    · simp [alistInsert, h1, alistFind]
    · by_cases h2 : k = p.1
      · simp [alistInsert, h1, h2, alistFind]
      · have hne : ¬ p.1 = k := by omega
        simp only [alistInsert, if_neg h1, if_neg h2]
        simpa [alistFind, hne] using ih

theorem alistFind_modify_self {α : Type} (m : List (Nat × α)) (k : Nat)
    (f : α → α) (v : α) (h : alistFind m k = some v) :
    alistFind (alistModify m k f) k = some (f v) := by
  induction m with
  | nil => simp [alistFind] at h
  | cons p t ih =>
    by_cases h1 : p.1 = k
    · simp only [alistFind, if_pos h1, Option.some.injEq] at h
      simp [alistModify, if_pos h1, alistFind, h]
    · simp only [alistFind, if_neg h1] at h
      simpa [alistModify, if_neg h1, alistFind, h1] using ih h

theorem alistFind_modify_ne {α : Type} (m : List (Nat × α)) (k k' : Nat)
    (f : α → α) (h : k ≠ k') :
    alistFind (alistModify m k f) k' = alistFind m k' := by
  induction m with
  | nil => rfl
  | cons p t ih =>
    by_cases h1 : p.1 = k
    · have h2 : ¬ p.1 = k' := by omega
      simp [alistModify, h1, alistFind, h2, h]
    · by_cases h2 : p.1 = k'
      · simp [alistModify, h1, alistFind, h2, h, Ne.symm h]
      · simpa [alistModify, h1, alistFind, h2, Ne.symm h] using ih

/-- Claim C1: with endpoints {1, 2, 3} connected, all permanently having
pending uplink data, and available_units = 1, the claim says four
consecutive ScheduleUl calls grant 1, 2, 3, 1.  Evaluating the code at this
input shows every one of the four calls grants endpoint 1: ScheduleUl scans
the context map from the beginning on every call and never consults
m_lastUlRnti or GetNextRnti (the uplink branch of GetNextRnti and the
m_lastUlRnti write are dead code), so the cursor never advances the uplink
scan.  All three endpoints remain connected with a 100-byte backlog
throughout, so eligibility is not the cause. -/
theorem c1_ul_grants_ignore_round_robin_cursor :
    exC1Call1.1.map (fun g => g.rnti) = [1] ∧
    exC1Call2.1.map (fun g => g.rnti) = [1] ∧
    exC1Call3.1.map (fun g => g.rnti) = [1] ∧
    exC1Call4.1.map (fun g => g.rnti) = [1] ∧
    exC1Call4.2.2.ueContexts.map
      (fun p => (p.1, p.2.connected, decide (0 < p.2.totalBufferSize))) =
      [(1, true, true), (2, true, true), (3, true, true)] := by
  decide

/-! ### Claim C2 -/

theorem processNack_numProcesses (m : NbIotHarqManager) (i : Nat) :
    (processNack m i).2.numProcesses = m.numProcesses := by
  unfold processNack
  split
  · rfl
  · dsimp only
    split <;> rfl

theorem processNack_maxTransmissions (m : NbIotHarqManager) (i : Nat) :
    (processNack m i).2.maxTransmissions = m.maxTransmissions := by
  unfold processNack
  split
  · rfl
  · dsimp only
    split <;> rfl

theorem processNack_length (m : NbIotHarqManager) (i : Nat) :
    (processNack m i).2.processes.length = m.processes.length := by
  unfold processNack
  split
  · rfl
  · dsimp only
    split <;> simp [List.length_set]

theorem nackN_numProcesses (m : NbIotHarqManager) (i n : Nat) :
    (nackN m i n).2.numProcesses = m.numProcesses := by
  induction n with
  | zero => rfl
  | succ n ih => simp [nackN, processNack_numProcesses, ih]

theorem nackN_maxTransmissions (m : NbIotHarqManager) (i n : Nat) :
    (nackN m i n).2.maxTransmissions = m.maxTransmissions := by
  induction n with
  | zero => rfl
  | succ n ih => simp [nackN, processNack_maxTransmissions, ih]

theorem nackN_length (m : NbIotHarqManager) (i n : Nat) :
    (nackN m i n).2.processes.length = m.processes.length := by
  induction n with
  | zero => rfl
  | succ n ih => simp [nackN, processNack_length, ih]

theorem listSetSame {α : Type} (l : List α) :
    ∀ (n : Nat) (a : α), l.get? n = some a → l.set n a = l := by
  induction l with
  | nil => intro n a h; simp at h
  | cons x t ih =>
    intro n a h
    cases n with
    | zero =>
      simp only [List.get?] at h
      simp [List.set, Option.some.inj h]
    | succ n =>
      simp only [List.get?] at h
      simp [List.set, ih n a h]

/-- One ProcessNack call on an in-range process id, characterised by the
entity currently stored there: increment the attempt counter; reset with
"give up" when it has reached the maximum, else "retry". -/
theorem processNack_char (m : NbIotHarqManager) (processId : Nat)
    (e : NbIotHarqEntity)
    (hid : processId < m.numProcesses)
    (he : m.processes.get? processId = some e) :
    processNack m processId =
      (if m.maxTransmissions ≤ (e.txCount + 1) % 256 then
        (false, setProcess m processId harqEntityReset)
      else
        (true, setProcess m processId (withTx e ((e.txCount + 1) % 256)))) := by
  have hg : ¬ m.numProcesses ≤ processId := Nat.not_le.mpr hid
  have hgd : m.processes.getD processId {} = e := by
    have h0 : m.processes.getD processId {} = (m.processes.get? processId).getD {} := rfl
    rw [h0, he]
    rfl
  unfold processNack
  rw [if_neg hg]
  dsimp only
  rw [hgd]
  rfl

theorem setProcess_get? (m : NbIotHarqManager) (i : Nat) (x : NbIotHarqEntity)
    (h : i < m.processes.length) :
    (setProcess m i x).processes.get? i = some x :=
  listGetSetSelf m.processes i x h

theorem setProcess_setProcess (m : NbIotHarqManager) (i : Nat)
    (x y : NbIotHarqEntity) :
    setProcess (setProcess m i x) i y = setProcess m i y := by
  unfold setProcess
  simp [List.set_set]

theorem withTx_withTx (e : NbIotHarqEntity) (j j' : Nat) :
    withTx (withTx e j) j' = withTx e j' := rfl

theorem withTx_txCount (e : NbIotHarqEntity) (j : Nat) :
    (withTx e j).txCount = j := rfl

/-- The state after j < maxTransmissions consecutive NACKs on a process
whose entity starts active with attempt count 0: every call reported
"retry", and only the attempt counter (now j) has changed. -/
theorem nackN_below_max (m : NbIotHarqManager) (processId : Nat)
    (e : NbIotHarqEntity)
    (hlen : m.processes.length = m.numProcesses)
    (hid : processId < m.numProcesses)
    (he : m.processes.get? processId = some e)
    (ht : e.txCount = 0)
    (hmax : m.maxTransmissions ≤ 255) :
    ∀ j, j < m.maxTransmissions →
      nackN m processId j =
        (List.replicate j true, setProcess m processId (withTx e j)) := by
  intro j
  induction j with
  | zero =>
    intro _
    have h1 : withTx e 0 = e := by
      unfold withTx
      rw [← ht]
    unfold setProcess
    rw [h1, listSetSame m.processes processId e he]
    rfl
  | succ j ih =>
    intro hj
    have hj' : j < m.maxTransmissions := Nat.lt_of_succ_lt hj
    have hlen' : processId < m.processes.length := by omega
    have hmod : (j + 1) % 256 = j + 1 := Nat.mod_eq_of_lt (by omega)
    have hid2 : processId < (setProcess m processId (withTx e j)).numProcesses := hid
    have hchar := processNack_char (setProcess m processId (withTx e j))
      processId (withTx e j) hid2
      (setProcess_get? m processId (withTx e j) hlen')
    have hcond : ¬ (setProcess m processId (withTx e j)).maxTransmissions ≤
        ((withTx e j).txCount + 1) % 256 := by
      show ¬ m.maxTransmissions ≤ ((withTx e j).txCount + 1) % 256
      rw [withTx_txCount, hmod]
      omega
    simp only [nackN, ih hj']
    rw [hchar, if_neg hcond]
    rw [setProcess_setProcess, withTx_withTx, withTx_txCount, hmod,
      ← List.replicate_succ']

theorem setProcess_length (m : NbIotHarqManager) (i : Nat) (x : NbIotHarqEntity) :
    (setProcess m i x).processes.length = m.processes.length := by
  unfold setProcess
  simp [List.length_set]

/-- Claim C2: for max_transmissions = K, a process that starts active with
attempt count 0 and is fed K-1 consecutive NACKs remains active with
attempt count K-1, every call reported "retry" (true) and the buffered
block stayed in place; the K-th NACK resets the entity (inactive, attempt
0, block cleared — harqEntityReset) and reports "give up" (false); and a
ProcessAck after any number of prior NACKs resets the entity immediately.
K is bounded by 255 because the attempt counter is a uint8_t (the
configuration surface caps it at 16 anyway). -/
theorem c2_harq_retry_bound (m : NbIotHarqManager) (processId : Nat)
    (e : NbIotHarqEntity)
    (hlen : m.processes.length = m.numProcesses)
    (hid : processId < m.numProcesses)
    (he : m.processes.get? processId = some e)
    (hact : e.active = true)
    (ht : e.txCount = 0)
    (hK1 : 1 ≤ m.maxTransmissions)
    (hK255 : m.maxTransmissions ≤ 255) :
    (nackN m processId (m.maxTransmissions - 1)).1 =
        List.replicate (m.maxTransmissions - 1) true ∧
    (nackN m processId (m.maxTransmissions - 1)).2.processes.get? processId =
        some (withTx e (m.maxTransmissions - 1)) ∧
    (withTx e (m.maxTransmissions - 1)).active = true ∧
    (withTx e (m.maxTransmissions - 1)).packet = e.packet ∧
    (processNack (nackN m processId (m.maxTransmissions - 1)).2 processId).1 = false ∧
    (processNack (nackN m processId (m.maxTransmissions - 1)).2 processId).2.processes.get?
        processId = some harqEntityReset ∧
    ∀ n : Nat, (processAck (nackN m processId n).2 processId).processes.get? processId =
        some harqEntityReset := by
  have hlt : m.maxTransmissions - 1 < m.maxTransmissions := by omega
  have hmain := nackN_below_max m processId e hlen hid he ht hK255
    (m.maxTransmissions - 1) hlt
  have hlenlt : processId < m.processes.length := by omega
  have hget := setProcess_get? m processId (withTx e (m.maxTransmissions - 1)) hlenlt
  have hchar := processNack_char
    (setProcess m processId (withTx e (m.maxTransmissions - 1)))
    processId (withTx e (m.maxTransmissions - 1)) hid hget
  have hcond : (setProcess m processId (withTx e (m.maxTransmissions - 1))).maxTransmissions ≤
      ((withTx e (m.maxTransmissions - 1)).txCount + 1) % 256 := by
    show m.maxTransmissions ≤ ((withTx e (m.maxTransmissions - 1)).txCount + 1) % 256
    rw [withTx_txCount]
    have h1 : m.maxTransmissions - 1 + 1 = m.maxTransmissions := by omega
    rw [h1, Nat.mod_eq_of_lt (by omega)]
  refine ⟨?_, ?_, hact, rfl, ?_, ?_, ?_⟩
  · rw [hmain]
  · rw [hmain]
    exact hget
  · rw [hmain, hchar, if_pos hcond]
  · rw [hmain, hchar, if_pos hcond]
    refine setProcess_get? _ processId harqEntityReset ?_
    rw [setProcess_length]
    exact hlenlt
  · intro n
    have hnum : (nackN m processId n).2.numProcesses = m.numProcesses :=
      nackN_numProcesses m processId n
    have hlen2 : processId < (nackN m processId n).2.processes.length := by
      rw [nackN_length]
      exact hlenlt
    unfold processAck
    rw [if_pos (by rw [hnum]; exact hid)]
    exact listGetSetSelf _ processId harqEntityReset hlen2

theorem c2_harq_retry_bound_witness :
    (nackN exC2Mgr 0 7).1 = List.replicate 7 true ∧
    (nackN exC2Mgr 0 7).2.processes.get? 0 = some (withTx exC2Ent 7) ∧
    (processNack (nackN exC2Mgr 0 7).2 0).1 = false ∧
    (processNack (nackN exC2Mgr 0 7).2 0).2.processes.get? 0 = some harqEntityReset ∧
    (processAck (nackN exC2Mgr 0 3).2 0).processes.get? 0 = some harqEntityReset := by
  have h := c2_harq_retry_bound exC2Mgr 0 exC2Ent rfl (by decide) rfl rfl rfl
    (by decide) (by decide)
  exact ⟨h.1, h.2.1, h.2.2.2.2.1, h.2.2.2.2.2.1, h.2.2.2.2.2.2 3⟩

/-- Claim C9 counterexample: the claim says ONLY an out-of-range process id
leaves all state unchanged and returns false.  With max_transmissions = 1
and an already-reset entity, the IN-RANGE id 0 also leaves the manager
bit-for-bit unchanged and returns false: the increment immediately reaches
the maximum and the reset restores the state the entity was already in. -/
theorem c9_nack_counterexample :
    0 < exC9Mgr.numProcesses ∧ processNack exC9Mgr 0 = (false, exC9Mgr) := by
  decide

/-- Claim C9 (amended): ProcessNack on an in-range id applies the
increment-then-check rule to the addressed entity even when the entity is
inactive (the activity flag is never consulted): the attempt counter is
incremented, and if it has reached the configured maximum the entity is
reset and the call reports "give up" (false), else it reports "retry"
(true) with only the counter changed; an out-of-range id (≥ pool size)
leaves the manager unchanged and returns false.  (The original claim's
"only an out-of-range id leaves all state unchanged" clause fails in the
corner case shown by the counterexample, where the in-range
increment-then-reset restores the identical state.) -/
theorem c9_nack_inactive_not_skipped (m : NbIotHarqManager) (processId : Nat)
    (e : NbIotHarqEntity)
    (hid : processId < m.numProcesses)
    (he : m.processes.get? processId = some e)
    (_hinact : e.active = false) :
    (m.maxTransmissions ≤ (e.txCount + 1) % 256 →
      processNack m processId = (false, setProcess m processId harqEntityReset)) ∧
    (¬ m.maxTransmissions ≤ (e.txCount + 1) % 256 →
      processNack m processId =
        (true, setProcess m processId (withTx e ((e.txCount + 1) % 256)))) ∧
    (∀ (m' : NbIotHarqManager) (i : Nat), m'.numProcesses ≤ i →
      processNack m' i = (false, m')) := by
  refine ⟨?_, ?_, ?_⟩
  · intro hc
    rw [processNack_char m processId e hid he, if_pos hc]
  · intro hc
    rw [processNack_char m processId e hid he, if_neg hc]
  · intro m' i hge
    unfold processNack
    rw [if_pos hge]

theorem c9_nack_inactive_not_skipped_witness :
    processNack exC9WMgr 1 = (true, setProcess exC9WMgr 1 (withTx exC9WEnt 4)) ∧
    processNack exC9WMgr 5 = (false, exC9WMgr) := by
  have h := c9_nack_inactive_not_skipped exC9WMgr 1 exC9WEnt (by decide) rfl rfl
  exact ⟨h.2.1 (by decide), h.2.2 exC9WMgr 5 (by decide)⟩

/-! ### Claim C10 -/

theorem selectMcsAndTbs_cqi7 (n : Nat) (hn : n ≤ 12) :
    selectMcsAndTbs 7 n = (4, max 16 (88 * n / 12)) := by
  interval_cases n <;> decide

/-- Claim C10: ConfigureSps derives the stored MCS and transport-block size
from the fixed default CQI 7 — its signature does not even receive the
target endpoint's channel-quality index, so the result is the same for
every endpoint: mcs = 4 always, and for n ≤ 12 subcarriers
tbSize = max 16 (88 * n / 12) (in particular 88 at n = 12); the
configuration is stored deactivated with nextAllocation = now. -/
theorem c10_configure_sps_default_cqi (now : Int) (sps : SpsState) (rnti : Nat)
    (interval : Int) (n : Nat) (hn : n ≤ 12) :
    ∃ cfg : NbIotSpsConfig,
      alistFind (configureSps now sps rnti interval n).spsConfigs rnti = some cfg ∧
      cfg.mcs = 4 ∧ cfg.tbSize = max 16 (88 * n / 12) ∧
      cfg.nextAllocation = now ∧ cfg.active = false ∧
      cfg.spsInterval = interval ∧ cfg.numSubcarriers = n := by
  unfold configureSps
  refine ⟨_, alistFind_insert_self _ _ _, ?_, ?_, rfl, rfl, rfl, rfl⟩
  · show (selectMcsAndTbs 7 n).1 = 4
    rw [selectMcsAndTbs_cqi7 n hn]
  · show (selectMcsAndTbs 7 n).2 = max 16 (88 * n / 12)
    rw [selectMcsAndTbs_cqi7 n hn]

theorem c10_configure_sps_default_cqi_witness :
    ∃ cfg : NbIotSpsConfig,
      alistFind (configureSps 50 {} 7 20 6).spsConfigs 7 = some cfg ∧
      cfg.mcs = 4 ∧ cfg.tbSize = max 16 (88 * 6 / 12) ∧
      cfg.nextAllocation = 50 ∧ cfg.active = false ∧
      cfg.spsInterval = 20 ∧ cfg.numSubcarriers = 6 :=
  c10_configure_sps_default_cqi 50 {} 7 20 6 (by decide)

theorem alistFind_mem {α : Type} (m : List (Nat × α)) (k : Nat) (v : α)
    (h : alistFind m k = some v) : (k, v) ∈ m := by
  induction m with
  | nil => simp [alistFind] at h
  | cons p t ih =>
    by_cases h1 : p.1 = k
    · simp only [alistFind, if_pos h1, Option.some.injEq] at h
      have hpv : (k, v) = p := by
        calc (k, v) = (p.1, p.2) := by rw [h1, h]
          _ = p := rfl
      rw [hpv]
      exact List.mem_cons_self p t
    · simp only [alistFind, if_neg h1] at h
      exact List.mem_cons_of_mem p (ih h)

theorem spsWf_modify (m : List (Nat × NbIotSpsConfig)) (k : Nat)
    (f : NbIotSpsConfig → NbIotSpsConfig)
    (hf : ∀ c, (f c).rnti = c.rnti)
    (hwf : SpsWf m) : SpsWf (alistModify m k f) := by
  induction m with
  | nil => intro p hp; simp [alistModify] at hp
  | cons q t ih =>
    by_cases h1 : q.1 = k
    · intro p hp
      simp only [alistModify, if_pos h1] at hp
      rcases List.mem_cons.mp hp with hp | hp
      · rw [hp]
        show (f q.2).rnti = q.1
        rw [hf]
        exact hwf q (List.mem_cons_self q t)
      · exact hwf p (List.mem_cons_of_mem q hp)
    · intro p hp
      simp only [alistModify, if_neg h1] at hp
      rcases List.mem_cons.mp hp with hp | hp
      · rw [hp]
        exact hwf q (List.mem_cons_self q t)
      · exact ih (fun p hp => hwf p (List.mem_cons_of_mem q hp)) p hp

theorem spsFire_rnti (now : Int) (c : NbIotSpsConfig) :
    (spsFire now c).rnti = c.rnti := rfl

theorem spsFire_idem (now : Int) (c : NbIotSpsConfig) :
    spsFire now (spsFire now c) = spsFire now c := rfl

/-- What one pass of the ScheduleSpsGrants loop does to each stored
configuration: an entry either comes out unchanged, or it was active with
an elapsed nextAllocation and came out re-anchored to now + interval. -/
theorem spsGrantsGo_lookup (now : Int) (ueCtxs : List (Nat × NbIotUeContext))
    (rbs : Nat) :
    ∀ (ks : List Nat) (m : List (Nat × NbIotSpsConfig)) (used dataTx padTx : Nat),
      SpsWf m →
      ∀ k c, alistFind m k = some c →
      ∀ c', alistFind (spsGrantsGo now ueCtxs rbs ks m used dataTx padTx).2.1 k = some c' →
        c' = c ∨ (c.active = true ∧ c.nextAllocation ≤ now ∧ c' = spsFire now c) := by
  intro ks
  induction ks with
  | nil =>
    intro m used dataTx padTx _ k c hc c' hc'
    simp only [spsGrantsGo] at hc'
    rw [hc] at hc'
    exact Or.inl (Option.some.inj hc').symm
  | cons k0 ks ih =>
    intro m used dataTx padTx hwf k c hc c' hc'
    by_cases hbudget : rbs ≤ used
    · simp only [spsGrantsGo, if_pos hbudget] at hc'
      rw [hc] at hc'
      exact Or.inl (Option.some.inj hc').symm
    · rcases h0 : alistFind m k0 with _ | c0
      · simp only [spsGrantsGo, if_neg hbudget, h0] at hc'
        exact ih m used dataTx padTx hwf k c hc c' hc'
      · by_cases hact : c0.active = true
        · by_cases hdue : c0.nextAllocation ≤ now
          · -- fired: the map advances to spsUpdateNextAllocation now m c0.rnti
            have hrnti : c0.rnti = k0 := hwf (k0, c0) (alistFind_mem m k0 c0 h0)
            simp only [spsGrantsGo, if_neg hbudget, h0, hact, Bool.not_true,
              Bool.false_eq_true, if_false, if_pos hdue] at hc'
            have hwf1 : SpsWf (spsUpdateNextAllocation now m c0.rnti) :=
              spsWf_modify m c0.rnti (spsFire now) (spsFire_rnti now) hwf
            by_cases hk : k = k0
            · -- the fired entry itself
              have hck : c = c0 := by
                rw [hk] at hc
                rw [h0] at hc
                exact (Option.some.inj hc).symm
              have hfind1 : alistFind (spsUpdateNextAllocation now m c0.rnti) k =
                  some (spsFire now c0) := by
                unfold spsUpdateNextAllocation
                rw [hk, ← hrnti]
                exact alistFind_modify_self m c0.rnti (spsFire now) c0 (hrnti ▸ h0)
              have h2 := ih (spsUpdateNextAllocation now m c0.rnti) (used + 1) _ _
                hwf1 k (spsFire now c0) hfind1 c' hc'
              rcases h2 with h2 | h2
              · exact Or.inr ⟨hck ▸ hact, hck ▸ hdue, hck ▸ h2⟩
              · rcases h2 with ⟨_, _, h2⟩
                rw [spsFire_idem] at h2
                exact Or.inr ⟨hck ▸ hact, hck ▸ hdue, hck ▸ h2⟩
            · -- an entry at a different key is untouched by this update
              have hfind1 : alistFind (spsUpdateNextAllocation now m c0.rnti) k =
                  some c := by
                unfold spsUpdateNextAllocation
                rw [hrnti]
                rw [alistFind_modify_ne m k0 k (spsFire now) (fun h => hk h.symm)]
                exact hc
              exact ih (spsUpdateNextAllocation now m c0.rnti) (used + 1) _ _
                hwf1 k c hfind1 c' hc'
          · simp only [spsGrantsGo, if_neg hbudget, h0, hact, Bool.not_true,
              Bool.false_eq_true, if_false, if_neg hdue] at hc'
            exact ih m used dataTx padTx hwf k c hc c' hc'
        · have hact' : (!c0.active) = true := by
            simp [Bool.not_eq_true] at hact ⊢
            exact hact
          simp only [spsGrantsGo, if_neg hbudget, h0, hact', if_true] at hc'
          exact ih m used dataTx padTx hwf k c hc c' hc'

/-- Claim C6 (amended): when ScheduleSpsGrants fires an active
configuration whose nextAllocation has elapsed at current time `now`, it
sets nextAllocation to now + interval — one interval after the FIRING time,
not after the previous nextAllocation, so the stored value is not in
general the activation time plus a whole number of intervals; every entry
either stays unchanged or is re-anchored this way, and with a positive
interval nextAllocation never moves backward. -/
theorem c6_sps_next_allocation (now : Int) (ueCtxs : List (Nat × NbIotUeContext))
    (sps : SpsState) (availableRbs : Nat)
    (hwf : SpsWf sps.spsConfigs)
    (k : Nat) (c c' : NbIotSpsConfig)
    (hc : alistFind sps.spsConfigs k = some c)
    (hc' : alistFind (scheduleSpsGrants now ueCtxs sps availableRbs).2.spsConfigs k =
      some c') :
    (c' = c ∨ (c.active = true ∧ c.nextAllocation ≤ now ∧ c' = spsFire now c)) ∧
    (c' ≠ c → c'.nextAllocation = now + c.spsInterval) ∧
    (0 < c.spsInterval → c.nextAllocation ≤ c'.nextAllocation) := by
  have h := spsGrantsGo_lookup now ueCtxs availableRbs
    (sps.spsConfigs.map Prod.fst) sps.spsConfigs 0
    sps.dataTransmissions sps.paddingTransmissions hwf k c hc c' hc'
  refine ⟨h, ?_, ?_⟩
  · intro hne
    rcases h with h | ⟨_, _, h⟩
    · exact absurd h hne
    · rw [h]
      rfl
  · intro hpos
    rcases h with h | ⟨_, hdue, h⟩
    · rw [h]
    · have : c'.nextAllocation = now + c.spsInterval := by rw [h]; rfl
      omega

theorem c6_sps_next_allocation_witness :
    ((alistFind (scheduleSpsGrants 105 [] exC6Sps 1).2.spsConfigs 1).map
        (fun c => c.nextAllocation) = some 125) ∧
    (spsFire 105 exC6Cfg ≠ exC6Cfg →
      (spsFire 105 exC6Cfg).nextAllocation = 105 + exC6Cfg.spsInterval) ∧
    (0 < exC6Cfg.spsInterval →
      exC6Cfg.nextAllocation ≤ (spsFire 105 exC6Cfg).nextAllocation) := by
  have h := c6_sps_next_allocation 105 [] exC6Sps 1
    (by intro p hp; simp only [exC6Sps, List.mem_singleton] at hp; rw [hp]; rfl)
    1 exC6Cfg (spsFire 105 exC6Cfg) (by decide) (by decide)
  exact ⟨by decide, h.2.1, h.2.2⟩

/-- Claim C6 counterexample: the configuration was activated at t = 100
(nextAllocation = 100, interval = 20); the scheduling call happens at
t = 105, the grant fires, and nextAllocation is set to 125 — not 120 =
nextAllocation + interval, and not 100 + 20·j for any whole number j, so
the "advances by exactly one interval" / "always activation time plus a
whole number of intervals" claim fails on the code. -/
theorem c6_sps_next_allocation_counterexample :
    ((scheduleSpsGrants 105 [] exC6Sps 1).1.map (fun g => g.rnti) = [1]) ∧
    ((alistFind (scheduleSpsGrants 105 [] exC6Sps 1).2.spsConfigs 1).map
        (fun c => c.nextAllocation) = some 125) ∧
    (125 : Int) ≠ exC6Cfg.nextAllocation + exC6Cfg.spsInterval ∧
    ¬ ∃ j : Int, (125 : Int) = 100 + 20 * j := by
  refine ⟨by decide, by decide, by decide, ?_⟩
  rintro ⟨j, hj⟩
  omega

/-! ### Claim C4 -/

theorem rrUlLoop_length_le (ctxs : List (Nat × NbIotUeContext)) :
    (rrUlLoop ctxs).1.length ≤ 1 := by
  induction ctxs with
  | nil => simp [rrUlLoop]
  | cons p t ih =>
    unfold rrUlLoop
    split
    · simp
    · simpa using ih

theorem rrScheduleUl_length (rr : RrState) (st : MacState) (rbs : Nat) :
    (rrScheduleUl rr st rbs).1.length ≤ rbs := by
  unfold rrScheduleUl
  split
  · simp
  next h0 =>
    split
    · simp
    · dsimp only
      have := rrUlLoop_length_le st.ueContexts
      omega

theorem rrScheduleDl_length (rr : RrState) (st : MacState) (rbs : Nat) :
    (rrScheduleDl rr st rbs).1.length ≤ rbs := by
  unfold rrScheduleDl
  split
  · simp
  next h0 =>
    split
    · simp
    · dsimp only
      split
      · simp
      · split
        · simp
        · split
          · simp
          · split
            · simp
            · simp
              omega

theorem ccScheduleUl_length (f : List (Nat × Nat) → List (Nat × Nat))
    (st : MacState) (rbs : Nat) :
    (ccScheduleUl f st rbs).1.length ≤ rbs := by
  unfold ccScheduleUl
  split
  · simp
  next h0 =>
    dsimp only
    split
    · simp
    · split
      · simp
      · split
        · simp
        · simp
          omega

theorem ccScheduleDl_length (f : List (Nat × Nat) → List (Nat × Nat))
    (st : MacState) (rbs : Nat) :
    (ccScheduleDl f st rbs).1.length ≤ rbs := by
  unfold ccScheduleDl
  split
  · simp
  next h0 =>
    dsimp only
    split
    · simp
    · split
      · simp
      · split
        · simp
        · split
          · simp
          · simp
            omega

theorem spsDlLoop_length (rbs : Nat) :
    ∀ (l : List (Nat × NbIotUeContext)) (st : MacState) (used : Nat),
      (spsDlLoop rbs l st used).1.length ≤ rbs - used := by
  intro l
  induction l with
  | nil =>
    intro st used
    simp [spsDlLoop]
  | cons p t ih =>
    intro st used
    unfold spsDlLoop
    split
    · simp
    next hb =>
      dsimp only
      split
      · exact ih st used
      · dsimp only
        simp only [List.length_cons]
        exact le_trans (Nat.succ_le_succ (ih _ _)) (by omega)

theorem spsScheduleDl_length (st : MacState) (rbs : Nat) :
    (spsScheduleDl st rbs).1.length ≤ rbs := by
  have := spsDlLoop_length rbs st.ueContexts st 0
  simpa [spsScheduleDl] using this

theorem spsGrantsGo_length (now : Int) (ueCtxs : List (Nat × NbIotUeContext))
    (rbs : Nat) :
    ∀ (ks : List Nat) (m : List (Nat × NbIotSpsConfig)) (used dataTx padTx : Nat),
      (spsGrantsGo now ueCtxs rbs ks m used dataTx padTx).1.length ≤ rbs - used := by
  intro ks
  induction ks with
  | nil =>
    intro m used dataTx padTx
    simp [spsGrantsGo]
  | cons k ks ih =>
    intro m used dataTx padTx
    unfold spsGrantsGo
    split
    · simp
    next hb =>
      split
      · exact ih m used dataTx padTx
      · split
        · exact ih m used dataTx padTx
        · split
          · dsimp only
            simp only [List.length_cons]
            exact le_trans (Nat.succ_le_succ (ih _ _ _ _)) (by omega)
          · exact ih m used dataTx padTx

theorem scheduleSpsGrants_length (now : Int) (ueCtxs : List (Nat × NbIotUeContext))
    (sps : SpsState) (rbs : Nat) :
    (scheduleSpsGrants now ueCtxs sps rbs).1.length ≤ rbs := by
  have := spsGrantsGo_length now ueCtxs rbs (sps.spsConfigs.map Prod.fst)
    sps.spsConfigs 0 sps.dataTransmissions sps.paddingTransmissions
  simpa [scheduleSpsGrants] using this

theorem dynLoop_length (rbs : Nat) :
    ∀ (l : List Nat) (st : MacState) (used : Nat),
      (dynLoop rbs l st used).1.length ≤ rbs - used := by
  intro l
  induction l with
  | nil =>
    intro st used
    simp [dynLoop]
  | cons r t ih =>
    intro st used
    unfold dynLoop
    split
    · simp
    next hb =>
      split
      · exact ih st used
      · dsimp only
        simp only [List.length_cons]
        exact le_trans (Nat.succ_le_succ (ih _ _)) (by omega)

theorem scheduleDynamicGrants_length (sps : SpsState) (st : MacState) (rbs : Nat) :
    (scheduleDynamicGrants sps st rbs).1.length ≤ rbs := by
  unfold scheduleDynamicGrants
  split
  · simp
  · dsimp only
    exact le_trans (dynLoop_length rbs _ st 0) (by omega)

theorem foldl_rb_budget (l : List NbIotUlGrantResult) :
    ∀ rbs : Nat, l.foldl (fun r _ => if 0 < r then r - 1 else 0) rbs = rbs - l.length := by
  induction l with
  | nil => intro rbs; simp
  | cons x t ih =>
    intro rbs
    simp only [List.foldl_cons, List.length_cons]
    by_cases h : 0 < rbs
    · rw [if_pos h, ih]
      omega
    · rw [if_neg h, ih]
      omega

theorem spsScheduleUl_length (now : Int) (sps : SpsState) (st : MacState)
    (rbs : Nat) :
    (spsScheduleUl now sps st rbs).1.length ≤ rbs := by
  unfold spsScheduleUl
  dsimp only
  rw [List.length_append, foldl_rb_budget]
  have hs := scheduleSpsGrants_length now st.ueContexts
    { sps with subframeCounter := sps.subframeCounter + 1 } rbs
  have hd := scheduleDynamicGrants_length
    (scheduleSpsGrants now st.ueContexts
      { sps with subframeCounter := sps.subframeCounter + 1 } rbs).2 st
    (rbs - (scheduleSpsGrants now st.ueContexts
      { sps with subframeCounter := sps.subframeCounter + 1 } rbs).1.length)
  omega

/-- Claim C4: for every scheduler policy, every state and every value of
available_units, one schedule_downlink call and one schedule_uplink call
each return at most available_units assignments/grants (the coverage-class
policy is quantified over every conforming std::sort implementation f,
though the bound does not depend on it). -/
theorem c4_budget_invariant (f : List (Nat × Nat) → List (Nat × Nat))
    (rr : RrState) (st : MacState) (sps : SpsState) (now : Int)
    (availableRbs : Nat) :
    (rrScheduleDl rr st availableRbs).1.length ≤ availableRbs ∧
    (rrScheduleUl rr st availableRbs).1.length ≤ availableRbs ∧
    (ccScheduleDl f st availableRbs).1.length ≤ availableRbs ∧
    (ccScheduleUl f st availableRbs).1.length ≤ availableRbs ∧
    (spsScheduleDl st availableRbs).1.length ≤ availableRbs ∧
    (spsScheduleUl now sps st availableRbs).1.length ≤ availableRbs :=
  ⟨rrScheduleDl_length rr st availableRbs,
   rrScheduleUl_length rr st availableRbs,
   ccScheduleDl_length f st availableRbs,
   ccScheduleUl_length f st availableRbs,
   spsScheduleDl_length st availableRbs,
   spsScheduleUl_length now sps st availableRbs⟩

theorem validPairSort_goodPairSort : ValidPairSort goodPairSort := fun l =>
  ⟨List.perm_insertionSort _ l, List.sorted_insertionSort _ l⟩

theorem validPairSort_revPairSort : ValidPairSort revPairSort := fun l =>
  ⟨(List.perm_insertionSort _ l.reverse).trans (List.reverse_perm l),
   List.sorted_insertionSort _ l.reverse⟩

theorem ueQualifies_connected (st : MacState) (dl : Bool)
    (p : Nat × NbIotUeContext) (h : ueQualifies st dl p = true) :
    p.2.connected = true := by
  unfold ueQualifies at h
  exact Bool.and_elim_left h

theorem rrUlLoop_connected (ctxs : List (Nat × NbIotUeContext)) :
    ∀ g ∈ (rrUlLoop ctxs).1, ∃ p ∈ ctxs, p.1 = g.rnti ∧ p.2.connected = true := by
  induction ctxs with
  | nil => simp [rrUlLoop]
  | cons p t ih =>
    unfold rrUlLoop
    split
    next hcond =>
      intro g hg
      simp only [List.mem_singleton] at hg
      refine ⟨p, List.mem_cons_self p t, ?_, Bool.and_elim_left hcond⟩
      rw [hg]
      rfl
    next hcond =>
      intro g hg
      obtain ⟨q, hq, h1, h2⟩ := ih g hg
      exact ⟨q, List.mem_cons_of_mem p hq, h1, h2⟩

theorem getNextRnti_qualifies (st : MacState) (lastRnti : Nat) (dl : Bool)
    (r : Nat) (hr : getNextRnti st lastRnti dl = r) (hne : r ≠ 0) :
    ∃ p ∈ st.ueContexts, p.1 = r ∧ ueQualifies st dl p = true := by
  unfold getNextRnti at hr
  by_cases hemp : st.ueContexts.isEmpty
  · rw [if_pos hemp] at hr
    exact absurd hr.symm hne
  · rw [if_neg hemp] at hr
    dsimp only at hr
    rcases hfind : (st.ueContexts.dropWhile (fun p => decide (p.1 ≤ lastRnti)) ++
        st.ueContexts.takeWhile (fun p => decide (p.1 ≤ lastRnti))).find?
        (ueQualifies st dl) with _ | p
    · rw [hfind] at hr
      exact absurd hr.symm hne
    · rw [hfind] at hr
      have hr2 : p.1 = r := hr
      have hmem := List.mem_of_find?_eq_some hfind
      have hq := List.find?_some hfind
      rcases List.mem_append.mp hmem with hm | hm
      · exact ⟨p, (List.dropWhile_sublist _).mem hm, hr2, hq⟩
      · exact ⟨p, (List.takeWhile_sublist _).mem hm, hr2, hq⟩

theorem rrScheduleDl_connected (rr : RrState) (st : MacState) (rbs : Nat) :
    ∀ a ∈ (rrScheduleDl rr st rbs).1,
      ∃ p ∈ st.ueContexts, p.1 = a.rnti ∧ p.2.connected = true := by
  unfold rrScheduleDl
  split
  · simp
  · split
    · simp
    · try dsimp only
      split
      · simp
      next h3 =>
        split
        · simp
        · split
          · simp
          · try dsimp only
            split
            · simp
            · intro a ha
              simp only [List.mem_singleton] at ha
              obtain ⟨p, hp, hpr, hq⟩ :=
                getNextRnti_qualifies st rr.lastDlRnti true _ rfl h3
              refine ⟨p, hp, ?_, ueQualifies_connected st true p hq⟩
              rw [ha]
              exact hpr

theorem sortByPriority_mem (f : List (Nat × Nat) → List (Nat × Nat))
    (hf : ValidPairSort f) (st : MacState) (ueList : List Nat) (r : Nat)
    (hr : r ∈ sortByPriority f st ueList) : r ∈ ueList := by
  unfold sortByPriority at hr
  rcases List.mem_map.mp hr with ⟨pr, hpr, hfst⟩
  have hmem := (List.Perm.mem_iff (hf _).1).mp hpr
  rcases List.mem_filterMap.mp hmem with ⟨r0, hr0, hsome⟩
  rcases Option.map_eq_some'.mp hsome with ⟨c, _, hpr'⟩
  rw [← hfst, ← hpr']
  exact hr0

theorem ccScheduleUl_connected (f : List (Nat × Nat) → List (Nat × Nat))
    (hf : ValidPairSort f) (st : MacState) (rbs : Nat) :
    ∀ g ∈ (ccScheduleUl f st rbs).1,
      ∃ p ∈ st.ueContexts, p.1 = g.rnti ∧ p.2.connected = true := by
  unfold ccScheduleUl
  split
  · simp
  · try dsimp only
    split
    · simp
    · split
      · simp
      next rnti rest hsorted =>
        split
        · simp
        next c hc =>
          intro g hg
          simp only [List.mem_singleton] at hg
          have hrm : rnti ∈ sortByPriority f st
              ((st.ueContexts.filter (fun p => p.2.connected && ulPending p.2)).map
                Prod.fst) := by
            rw [hsorted]
            exact List.mem_cons_self rnti rest
          have hcand := sortByPriority_mem f hf st _ rnti hrm
          rcases List.mem_map.mp hcand with ⟨p, hpf, hp1⟩
          have hpmem := List.mem_of_mem_filter hpf
          have hcond := List.of_mem_filter hpf
          refine ⟨p, hpmem, ?_, Bool.and_elim_left hcond⟩
          rw [hg, hp1]
          rfl

theorem ccScheduleDl_connected (f : List (Nat × Nat) → List (Nat × Nat))
    (hf : ValidPairSort f) (st : MacState) (rbs : Nat) :
    ∀ a ∈ (ccScheduleDl f st rbs).1,
      ∃ p ∈ st.ueContexts, p.1 = a.rnti ∧ p.2.connected = true := by
  unfold ccScheduleDl
  split
  · simp
  · dsimp only
    split
    · simp
    · split
      · simp
      next rnti rest hsorted =>
        split
        · simp
        next c hc =>
          try dsimp only
          split
          · simp
          · intro a ha
            simp only [List.mem_singleton] at ha
            have hrm : rnti ∈ sortByPriority f st
                ((st.ueContexts.filter
                  (fun p => p.2.connected && !(dlQueue st p.1).isEmpty)).map
                  Prod.fst) := by
              rw [hsorted]
              exact List.mem_cons_self rnti rest
            have hcand := sortByPriority_mem f hf st _ rnti hrm
            rcases List.mem_map.mp hcand with ⟨p, hpf, hp1⟩
            have hpmem := List.mem_of_mem_filter hpf
            have hcond := List.of_mem_filter hpf
            refine ⟨p, hpmem, ?_, Bool.and_elim_left hcond⟩
            rw [ha, hp1]

theorem rrScheduleUl_connected (rr : RrState) (st : MacState) (rbs : Nat) :
    ∀ g ∈ (rrScheduleUl rr st rbs).1,
      ∃ p ∈ st.ueContexts, p.1 = g.rnti ∧ p.2.connected = true := by
  unfold rrScheduleUl
  split
  · simp
  · split
    · simp
    · exact rrUlLoop_connected st.ueContexts

/-- Claim C3 (amended): the round-robin and coverage-class schedulers never
return an endpoint whose connected flag is false — every returned
assignment's/grant's RNTI belongs to a context entry with connected = true
— for every state, every available_units and (for coverage-class) every
conforming std::sort implementation.  The SPS scheduler, however, never
tests the connected flag in any of its paths (periodic, dynamic fallback,
or downlink), so the claim fails for it; see the counterexample. -/
theorem c3_connected_invariant (f : List (Nat × Nat) → List (Nat × Nat))
    (hf : ValidPairSort f) (rr : RrState) (st : MacState) (availableRbs : Nat) :
    (∀ g ∈ (rrScheduleUl rr st availableRbs).1,
      ∃ p ∈ st.ueContexts, p.1 = g.rnti ∧ p.2.connected = true) ∧
    (∀ a ∈ (rrScheduleDl rr st availableRbs).1,
      ∃ p ∈ st.ueContexts, p.1 = a.rnti ∧ p.2.connected = true) ∧
    (∀ g ∈ (ccScheduleUl f st availableRbs).1,
      ∃ p ∈ st.ueContexts, p.1 = g.rnti ∧ p.2.connected = true) ∧
    (∀ a ∈ (ccScheduleDl f st availableRbs).1,
      ∃ p ∈ st.ueContexts, p.1 = a.rnti ∧ p.2.connected = true) :=
  ⟨rrScheduleUl_connected rr st availableRbs,
   rrScheduleDl_connected rr st availableRbs,
   ccScheduleUl_connected f hf st availableRbs,
   ccScheduleDl_connected f hf st availableRbs⟩

theorem c3_connected_invariant_witness :
    ∃ p ∈ exC3WSt.ueContexts,
      p.1 = (rrUlGrantFor 1 exC3WCtx).rnti ∧ p.2.connected = true :=
  (c3_connected_invariant goodPairSort validPairSort_goodPairSort {} exC3WSt 1).1
    (rrUlGrantFor 1 exC3WCtx) (by decide)

/-- Claim C3 counterexample: the SPS scheduler serves disconnected
endpoints.  (1) Its uplink dynamic-fallback pass grants RNTI 1 although
that context has connected = false; (2) its downlink pass assigns to the
same disconnected context; (3) its periodic pass grants an RNTI for which
no UE context exists at all (the context map is empty). -/
theorem c3_connected_invariant_counterexample :
    exC3Ctx.connected = false ∧
    (spsScheduleUl 0 {} exC3St 1).1.map (fun g => g.rnti) = [1] ∧
    (spsScheduleDl exC3StQ 1).1.map (fun a => a.rnti) = [1] ∧
    (scheduleSpsGrants 105 [] exC3Sps 1).1.map (fun g => g.rnti) = [1] ∧
    alistFind ([] : List (Nat × NbIotUeContext)) 1 = none := by
  decide

/-! ### Claim C5 -/

theorem alistFind_of_mem_nodup {α : Type} (m : List (Nat × α))
    (hnd : (m.map Prod.fst).Nodup) (p : Nat × α) (hp : p ∈ m) :
    alistFind m p.1 = some p.2 := by
  induction m with
  | nil => cases hp
  | cons q t ih =>
    simp only [List.map_cons, List.nodup_cons] at hnd
    rcases List.mem_cons.mp hp with hp | hp
    · rw [hp]
      simp [alistFind]
    · have hq : ¬ q.1 = p.1 := by
        intro he
        exact hnd.1 (he ▸ List.mem_map_of_mem Prod.fst hp)
      simp only [alistFind, if_neg hq]
      exact ih hnd.2 hp

/-- Every qualifying context contributes its (rnti, priority) pair to the
list SortByPriority hands to std::sort. -/
theorem sortPairs_complete (st : MacState) (pred : Nat × NbIotUeContext → Bool)
    (hnd : (st.ueContexts.map Prod.fst).Nodup)
    (q : Nat × NbIotUeContext) (hq : q ∈ st.ueContexts) (hpred : pred q = true) :
    (q.1, getPriority q.2.ceLevel) ∈
      ((st.ueContexts.filter pred).map Prod.fst).filterMap
        (fun r => (lookupUe st r).map (fun c => (r, getPriority c.ceLevel))) := by
  refine List.mem_filterMap.mpr ⟨q.1, ?_, ?_⟩
  · exact List.mem_map_of_mem Prod.fst (List.mem_filter.mpr ⟨hq, hpred⟩)
  · have hlk : lookupUe st q.1 = some q.2 := alistFind_of_mem_nodup _ hnd q hq
    rw [hlk]
    rfl

/-- Claim C5 (amended): the coverage-class uplink scheduler serves an
endpoint whose priority value — derived purely from coverage class via
GetPriority (CE_LEVEL_2 ↦ 1, CE_LEVEL_1 ↦ 2, CE_LEVEL_0 ↦ 3) — is minimal
among all connected candidates with pending data, for every conforming
std::sort implementation f.  The original claim's tie-break ("lowest
endpoint id wins, since the sort is stable") is NOT guaranteed: the source
uses std::sort, which promises only a sorted permutation, and the
counterexample exhibits a conforming implementation that serves the higher
id on a tie. -/
theorem c5_priority_order (f : List (Nat × Nat) → List (Nat × Nat))
    (hf : ValidPairSort f) (st : MacState) (availableRbs : Nat)
    (hnd : (st.ueContexts.map Prod.fst).Nodup) :
    (getPriority .CE_LEVEL_2 = 1 ∧ getPriority .CE_LEVEL_1 = 2 ∧
      getPriority .CE_LEVEL_0 = 3) ∧
    ∀ g ∈ (ccScheduleUl f st availableRbs).1,
      ∃ p ∈ st.ueContexts, p.1 = g.rnti ∧
        (p.2.connected && ulPending p.2) = true ∧
        ∀ q ∈ st.ueContexts, (q.2.connected && ulPending q.2) = true →
          getPriority p.2.ceLevel ≤ getPriority q.2.ceLevel := by
  refine ⟨⟨rfl, rfl, rfl⟩, ?_⟩
  unfold ccScheduleUl
  split
  · simp
  · try dsimp only
    split
    · simp
    · split
      · simp
      next rnti rest hsorted =>
        split
        · simp
        next c hc =>
          intro g hg
          simp only [List.mem_singleton] at hg
          -- the head pair of the sorted list
          unfold sortByPriority at hsorted
          rcases hfp : f (((st.ueContexts.filter
              (fun p => p.2.connected && ulPending p.2)).map Prod.fst).filterMap
              (fun r => (lookupUe st r).map (fun c => (r, getPriority c.ceLevel))))
            with _ | ⟨pr, rest'⟩
          · rw [hfp] at hsorted
            simp at hsorted
          · rw [hfp] at hsorted
            simp only [List.map_cons, List.cons.injEq] at hsorted
            -- pr.1 = rnti, and pr itself is a pair of the input list
            have hboth := hf (((st.ueContexts.filter
                (fun p => p.2.connected && ulPending p.2)).map Prod.fst).filterMap
                (fun r => (lookupUe st r).map (fun c => (r, getPriority c.ceLevel))))
            have hprm := hboth.1
            have hprs := hboth.2
            rw [hfp] at hprs hprm
            have hprin : pr ∈ (((st.ueContexts.filter
                (fun p => p.2.connected && ulPending p.2)).map Prod.fst).filterMap
                (fun r => (lookupUe st r).map (fun c => (r, getPriority c.ceLevel)))) :=
              hprm.mem_iff.mp (List.mem_cons_self pr rest')
            rcases List.mem_filterMap.mp hprin with ⟨r0, hr0mem, hsome⟩
            rcases Option.map_eq_some'.mp hsome with ⟨c0, hlk0, hpair⟩
            have hr0 : r0 = rnti := by
              have := congrArg Prod.fst hpair
              simpa [hsorted.1] using this
            have hc0 : c0 = c := by
              rw [hr0] at hlk0
              rw [hlk0] at hc
              exact Option.some.inj hc
            have hpr2 : pr.2 = getPriority c.ceLevel := by
              have h1 := congrArg Prod.snd hpair
              simp only at h1
              rw [hc0] at h1
              exact h1.symm
            -- the served entry is a member and a candidate
            have hmem : (rnti, c) ∈ st.ueContexts :=
              alistFind_mem st.ueContexts rnti c hc
            have hcand : ((rnti, c).2.connected && ulPending (rnti, c).2) = true := by
              have hrc : rnti ∈ (st.ueContexts.filter
                  (fun p => p.2.connected && ulPending p.2)).map Prod.fst :=
                hr0 ▸ hr0mem
              rcases List.mem_map.mp hrc with ⟨q, hqf, hq1⟩
              have hc2 : alistFind st.ueContexts rnti = some c := hc
              have hlkq : alistFind st.ueContexts q.1 = some q.2 :=
                alistFind_of_mem_nodup _ hnd q (List.mem_of_mem_filter hqf)
              rw [hq1] at hlkq
              rw [hlkq] at hc2
              have hq2 : q.2 = c := Option.some.inj hc2
              have heq : q = (rnti, c) := by
                calc q = (q.1, q.2) := rfl
                  _ = (rnti, c) := by rw [hq1, hq2]
              rw [← heq]
              exact (List.mem_filter.mp hqf).2
            refine ⟨(rnti, c), hmem, ?_, hcand, ?_⟩
            · rw [hg]
              rfl
            · intro q hq hqpred
              have hqpair := sortPairs_complete st
                (fun p => p.2.connected && ulPending p.2) hnd q hq hqpred
              have hqin : (q.1, getPriority q.2.ceLevel) ∈ pr :: rest' :=
                hprm.mem_iff.mpr hqpair
              rcases List.mem_cons.mp hqin with hqin | hqin
              · have := congrArg Prod.snd hqin
                simp only at this
                show getPriority c.ceLevel ≤ getPriority q.2.ceLevel
                rw [this, ← hpr2]
              · have hle := List.rel_of_sorted_cons hprs _ hqin
                show getPriority c.ceLevel ≤ getPriority q.2.ceLevel
                rw [← hpr2]
                exact hle

theorem c5_priority_order_witness :
    (getPriority .CE_LEVEL_2 = 1 ∧ getPriority .CE_LEVEL_1 = 2 ∧
      getPriority .CE_LEVEL_0 = 3) ∧
    ∃ p ∈ exC5WSt.ueContexts, p.1 = (ccUlGrantFor 2 exC5WCtx2).rnti ∧
      (p.2.connected && ulPending p.2) = true ∧
      ∀ q ∈ exC5WSt.ueContexts, (q.2.connected && ulPending q.2) = true →
        getPriority p.2.ceLevel ≤ getPriority q.2.ceLevel := by
  have h := c5_priority_order goodPairSort validPairSort_goodPairSort exC5WSt 1
    (by decide)
  exact ⟨h.1, h.2 (ccUlGrantFor 2 exC5WCtx2) (by decide)⟩

/-- Claim C5 counterexample: the claim's tie-break ("when several
candidates share the lowest priority value, the candidate with the lowest
endpoint id is served, since the sort is stable") does not hold of the
code: SortByPriority uses std::sort, which guarantees only a sorted
permutation, not stability.  revPairSort is a conforming implementation
(ValidPairSort holds), yet with two equal-priority candidates {1, 2} the
scheduler built on it serves endpoint 2, not the lowest id 1. -/
theorem c5_priority_order_counterexample :
    ValidPairSort revPairSort ∧
    exC5St.ueContexts.map
      (fun p => (p.1, getPriority p.2.ceLevel, p.2.connected && ulPending p.2)) =
      [(1, 1, true), (2, 1, true)] ∧
    (ccScheduleUl revPairSort exC5St 1).1.map (fun g => g.rnti) = [2] :=
  ⟨validPairSort_revPairSort, by decide, by decide⟩

/-! ### Claim C7 -/

theorem collectSdus_length (q : List Nat) :
    ∀ rem, (collectSdus q rem).1.length + (collectSdus q rem).2.length = q.length := by
  induction q with
  | nil => intro rem; rfl
  | cons s t ih =>
    intro rem
    unfold collectSdus
    split
    · split
      · dsimp only
        simp only [List.length_cons]
        have := ih (rem - (s + 2))
        omega
      · simp
    · simp

theorem dlQueue_setDlQueue (st : MacState) (r : Nat) (q : List Nat) :
    dlQueue (setDlQueue st r q) r = q := by
  unfold dlQueue setDlQueue
  dsimp only
  rw [alistFind_insert_self]
  rfl

theorem transmitDlPdus_count (asgs : List NbIotDlAssignmentResult) :
    ∀ st : MacState, (transmitDlPdus st asgs).2.length = asgs.length := by
  induction asgs with
  | nil => intro st; rfl
  | cons a rest ih =>
    intro st
    unfold transmitDlPdus
    dsimp only
    rw [List.length_cons, ih]
    rfl

/-- Claim C7 (amended): the downlink path never consults
GetAvailableProcess (the function has no caller anywhere in the module):
TransmitDlPdus transmits every assignment it is handed — one PDU per
assignment, unconditionally, storing into the addressed process even if
that process is active — and the source queue is drained by ScheduleDl at
decision time, before TransmitDlPdus runs: every assignment the round-robin
downlink scheduler returns has already strictly shortened its endpoint's
queue in the post-scheduling state. -/
theorem c7_no_harq_availability_check (rr : RrState) (st : MacState)
    (availableRbs : Nat) (asgs : List NbIotDlAssignmentResult) :
    (transmitDlPdus st asgs).2.length = asgs.length ∧
    ∀ a ∈ (rrScheduleDl rr st availableRbs).1,
      (dlQueue (rrScheduleDl rr st availableRbs).2.2 a.rnti).length <
        (dlQueue st a.rnti).length := by
  refine ⟨transmitDlPdus_count asgs st, ?_⟩
  unfold rrScheduleDl
  split
  · simp
  · split
    · simp
    · try dsimp only
      split
      · simp
      next h3 =>
        split
        · simp
        next h4 =>
          split
          · simp
          next c hc =>
            try dsimp only
            split
            · simp
            next h5 =>
              intro a ha
              simp only [List.mem_singleton] at ha
              rw [ha]
              dsimp only
              rw [dlQueue_setDlQueue]
              have hlen := collectSdus_length
                (dlQueue st (getNextRnti st rr.lastDlRnti true))
                (getTbsFromMcsAndRbs (min c.cqi 10) 1)
              have hne : (collectSdus (dlQueue st (getNextRnti st rr.lastDlRnti true))
                  (getTbsFromMcsAndRbs (min c.cqi 10) 1)).1 ≠ [] := by
                intro hemp
                rw [hemp] at h5
                exact h5 rfl
              have hpos : 0 < (collectSdus (dlQueue st (getNextRnti st rr.lastDlRnti true))
                  (getTbsFromMcsAndRbs (min c.cqi 10) 1)).1.length :=
                List.length_pos.mpr hne
              omega

/-- Claim C7 counterexample: with no free HARQ process
(getAvailableProcess = none), the downlink tick still dequeues the queued
SDU (queue [10] → []), still transmits the assignment (one PDU reaches the
PHY — nothing is dropped), and overwrites busy process 0's in-flight block
[1] with the new PDU [10]; the claim said the assignment would be dropped
and the queue left unchanged. -/
theorem c7_no_harq_availability_check_counterexample :
    getAvailableProcess exC7Mgr = none ∧
    dlQueue exC7St 1 = [10] ∧
    (doScheduleDlRr {} exC7St).2.2 = [(1, [10])] ∧
    dlQueue (doScheduleDlRr {} exC7St).2.1 1 = [] ∧
    (alistFind (doScheduleDlRr {} exC7St).2.1.dlHarqManagers 1).map
      (fun h => h.processes.map (fun e => e.packet)) =
      some [some [10], some [2]] := by
  decide

theorem c7_no_harq_availability_check_witness :
    (transmitDlPdus exC7St [exC7Asg]).2.length = 1 ∧
    (dlQueue (rrScheduleDl {} exC7St 1).2.2 exC7Asg.rnti).length <
      (dlQueue exC7St exC7Asg.rnti).length := by
  have h := c7_no_harq_availability_check {} exC7St 1 [exC7Asg]
  exact ⟨h.1, h.2 exC7Asg (by decide)⟩

theorem rrUlLoop_buffers (ctxs : List (Nat × NbIotUeContext)) :
    (rrUlLoop ctxs).2.1.map (fun p => (p.1, p.2.totalBufferSize)) =
      ctxs.map (fun p => (p.1, p.2.totalBufferSize)) := by
  induction ctxs with
  | nil => rfl
  | cons p t ih =>
    unfold rrUlLoop
    split
    · simp
    · simpa using ih

theorem rrUlLoop_sr_cleared (ctxs : List (Nat × NbIotUeContext)) :
    ∀ g ∈ (rrUlLoop ctxs).1,
      ∃ p ∈ (rrUlLoop ctxs).2.1, p.1 = g.rnti ∧ p.2.srReceived = false := by
  induction ctxs with
  | nil => simp [rrUlLoop]
  | cons p t ih =>
    unfold rrUlLoop
    split
    · intro g hg
      simp only [List.mem_singleton] at hg
      refine ⟨(p.1, { p.2 with srReceived := false }), List.mem_cons_self _ _, ?_, rfl⟩
      rw [hg]
      rfl
    · intro g hg
      obtain ⟨q, hq, h1, h2⟩ := ih g hg
      exact ⟨q, List.mem_cons_of_mem p hq, h1, h2⟩

theorem rrScheduleUl_buffers (rr : RrState) (st : MacState) (rbs : Nat) :
    (rrScheduleUl rr st rbs).2.2.ueContexts.map (fun p => (p.1, p.2.totalBufferSize)) =
      st.ueContexts.map (fun p => (p.1, p.2.totalBufferSize)) := by
  unfold rrScheduleUl
  split
  · rfl
  · split
    · rfl
    · exact rrUlLoop_buffers st.ueContexts

theorem rrScheduleUl_sr_cleared (rr : RrState) (st : MacState) (rbs : Nat) :
    ∀ g ∈ (rrScheduleUl rr st rbs).1,
      ∃ p ∈ (rrScheduleUl rr st rbs).2.2.ueContexts,
        p.1 = g.rnti ∧ p.2.srReceived = false := by
  unfold rrScheduleUl
  split
  · simp
  · split
    · simp
    · exact rrUlLoop_sr_cleared st.ueContexts

theorem clearSr_buffers (st : MacState) (r : Nat) :
    (clearSr st r).ueContexts.map (fun p => (p.1, p.2.totalBufferSize)) =
      st.ueContexts.map (fun p => (p.1, p.2.totalBufferSize)) := by
  show (alistModify st.ueContexts r _).map _ = _
  induction st.ueContexts with
  | nil => rfl
  | cons q t ih =>
    by_cases h1 : q.1 = r
    · simp [alistModify, h1]
    · simpa [alistModify, h1] using ih

theorem clearSr_sr (st : MacState) (r : Nat) (c : NbIotUeContext)
    (hc : lookupUe st r = some c) :
    ∃ p ∈ (clearSr st r).ueContexts, p.1 = r ∧ p.2.srReceived = false := by
  have h := alistFind_modify_self st.ueContexts r
    (fun c => { c with srReceived := false }) c hc
  exact ⟨(r, { c with srReceived := false }),
    alistFind_mem _ r _ h, rfl, rfl⟩

theorem ccScheduleUl_buffers (f : List (Nat × Nat) → List (Nat × Nat))
    (st : MacState) (rbs : Nat) :
    (ccScheduleUl f st rbs).2.ueContexts.map (fun p => (p.1, p.2.totalBufferSize)) =
      st.ueContexts.map (fun p => (p.1, p.2.totalBufferSize)) := by
  unfold ccScheduleUl
  split
  · rfl
  · try dsimp only
    split
    · rfl
    · split
      · rfl
      · split
        · rfl
        · exact clearSr_buffers st _

theorem ccScheduleUl_sr_cleared (f : List (Nat × Nat) → List (Nat × Nat))
    (st : MacState) (rbs : Nat) :
    ∀ g ∈ (ccScheduleUl f st rbs).1,
      ∃ p ∈ (ccScheduleUl f st rbs).2.ueContexts,
        p.1 = g.rnti ∧ p.2.srReceived = false := by
  unfold ccScheduleUl
  split
  · simp
  · try dsimp only
    split
    · simp
    · split
      · simp
      next rnti rest hsorted =>
        split
        · simp
        next c hc =>
          intro g hg
          simp only [List.mem_singleton] at hg
          have h := clearSr_sr st rnti c hc
          rw [hg]
          exact h

/-- Claim C8 (amended): an uplink scheduling decision clears the selected
endpoint's request-pending flag but leaves every endpoint's backlog
unchanged (round-robin and coverage-class uplink schedulers, every state,
every available_units, every sort implementation); the backlog is increased
by queue enqueues (TransmitSdu adds the SDU size, mod 2^32) and set to the
reported value by buffer status reports (ProcessBsr sets 100 and raises the
flag).  The original claim's "scheduling decreases the backlog" is false on
the code: no scheduler path writes totalBufferSize at all. -/
theorem c8_ul_scheduling_context_effects
    (f : List (Nat × Nat) → List (Nat × Nat)) (rr : RrState) (st : MacState)
    (availableRbs : Nat) :
    ((rrScheduleUl rr st availableRbs).2.2.ueContexts.map
        (fun p => (p.1, p.2.totalBufferSize)) =
      st.ueContexts.map (fun p => (p.1, p.2.totalBufferSize))) ∧
    (∀ g ∈ (rrScheduleUl rr st availableRbs).1,
      ∃ p ∈ (rrScheduleUl rr st availableRbs).2.2.ueContexts,
        p.1 = g.rnti ∧ p.2.srReceived = false) ∧
    ((ccScheduleUl f st availableRbs).2.ueContexts.map
        (fun p => (p.1, p.2.totalBufferSize)) =
      st.ueContexts.map (fun p => (p.1, p.2.totalBufferSize))) ∧
    (∀ g ∈ (ccScheduleUl f st availableRbs).1,
      ∃ p ∈ (ccScheduleUl f st availableRbs).2.ueContexts,
        p.1 = g.rnti ∧ p.2.srReceived = false) ∧
    (∀ rnti size, dlQueue (transmitSdu st rnti size) rnti = dlQueue st rnti ++ [size] ∧
      ∀ c, lookupUe st rnti = some c →
        lookupUe (transmitSdu st rnti size) rnti =
          some (ctxWithBuf c ((c.totalBufferSize + size) % 2 ^ 32))) ∧
    (∀ rnti c, lookupUe st rnti = some c →
      lookupUe (processBsr st rnti) rnti = some (ctxAfterBsr c)) := by
  refine ⟨rrScheduleUl_buffers rr st availableRbs,
    rrScheduleUl_sr_cleared rr st availableRbs,
    ccScheduleUl_buffers f st availableRbs,
    ccScheduleUl_sr_cleared f st availableRbs, ?_, ?_⟩
  · intro rnti size
    constructor
    · show dlQueue (setDlQueue st rnti (dlQueue st rnti ++ [size])) rnti = _
      exact dlQueue_setDlQueue st rnti _
    · intro c hc
      exact alistFind_modify_self st.ueContexts rnti _ c hc
  · intro rnti c hc
    exact alistFind_modify_self st.ueContexts rnti _ c hc

/-- Claim C8 counterexample: the round-robin uplink scheduler grants
endpoint 1 and clears its request flag, but the backlog stays at 100 — the
scheduling decision does not decrease it as the claim states. -/
theorem c8_ul_scheduling_context_effects_counterexample :
    exC8St.ueContexts.map (fun p => (p.1, p.2.totalBufferSize, p.2.srReceived)) =
      [(1, 100, true)] ∧
    (rrScheduleUl {} exC8St 1).1.map (fun g => g.rnti) = [1] ∧
    (rrScheduleUl {} exC8St 1).2.2.ueContexts.map
      (fun p => (p.1, p.2.totalBufferSize, p.2.srReceived)) = [(1, 100, false)] := by
  decide

theorem c8_ul_scheduling_context_effects_witness :
    ((rrScheduleUl {} exC8St 1).2.2.ueContexts.map
        (fun p => (p.1, p.2.totalBufferSize)) =
      exC8St.ueContexts.map (fun p => (p.1, p.2.totalBufferSize))) ∧
    ∃ p ∈ (rrScheduleUl {} exC8St 1).2.2.ueContexts,
      p.1 = (rrUlGrantFor 1 exC8Ctx).rnti ∧ p.2.srReceived = false := by
  have h := c8_ul_scheduling_context_effects goodPairSort {} exC8St 1
  exact ⟨h.1, h.2.1 (rrUlGrantFor 1 exC8Ctx) (by decide)⟩
